import Mathlib

/-!
Verification of the capital-markets loaders backend.

This file gives a shallow embedding, in Lean, of the load/recovery/retry core
of the repository (the `BinanceAPILoad` / `YFinanceTickersLoad` loaders, the
`PyFredAPILoad` loader, the `retry_on_connection_error` decorator, the
`MongoDBConnectionFactory`, and the backfill loops of `LoaderService`), and
proves or refutes the specified properties of that core.

The MongoDB store is modelled as a list of records; each collection method
(`delete_many`, `insert_many`, `find`, `find_one` with sort) is translated to
the corresponding pure list operation.  Python `datetime` values are modelled
by a wall-clock day number, a time-of-day in microseconds, and an optional
timezone offset (`none` = naive); MongoDB comparisons on timestamps compare
absolute instants, with naive values interpreted as UTC, which mirrors
pymongo's storage semantics.
-/

namespace CapMkt

/-- Python exception values appearing in the loaders code.  `connectionFailure`
and `serverSelectionTimeout` are the two pymongo errors that
`retry_on_connection_error` classifies as transient; every other constructor is
non-retryable. -/
inductive PyError where
  | connectionFailure (code : Nat)
  | serverSelectionTimeout (code : Nat)
  | operationFailure (code : Nat)
  | valueError (code : Nat)
deriving DecidableEq, Repr

/-- `true` exactly on the error classes caught by the
`except (ConnectionFailure, ServerSelectionTimeoutError)` clause of
`retry_on_connection_error`. -/
def PyError.isConnErr : PyError → Bool
  | .connectionFailure _ => true
  | .serverSelectionTimeout _ => true
  | _ => false

/-- Microseconds in one day; the resolution of Python `datetime`. -/
def usPerDay : Int := 86400000000

/-- A Python `datetime`: wall-clock calendar day (as an epoch day number),
wall-clock time of day in microseconds, and optional timezone offset in
microseconds (`none` models a naive datetime). -/
structure PyDateTime where
  day : Int
  tod : Int
  tz : Option Int
deriving DecidableEq, Repr

/-- The absolute instant of a datetime, in microseconds.  pymongo stores and
compares datetimes as absolute instants and treats naive values as UTC, so a
missing offset counts as `0`. -/
def instant (t : PyDateTime) : Int :=
  t.day * usPerDay + t.tod - t.tz.getD 0

/-- Well-formedness of a datetime: the time of day lies inside one day. -/
def WfTS (t : PyDateTime) : Prop :=
  0 ≤ t.tod ∧ t.tod < usPerDay

instance (t : PyDateTime) : Decidable (WfTS t) := by
  unfold WfTS; infer_instance

/-- The timestamp normalisation at the top of `insert_crypto_data` /
`insert_market_data`: naive timestamps are `tz_localize`d to UTC (wall clock
kept, offset set to 0), aware timestamps are `tz_convert`ed to UTC (absolute
instant kept, wall clock recomputed at offset 0). -/
def toUTC (t : PyDateTime) : PyDateTime :=
  match t.tz with
  | none => { t with tz := some 0 }
  | some off =>
      let w : Int := t.day * usPerDay + t.tod - off
      { day := w.ediv usPerDay, tod := w.emod usPerDay, tz := some 0 }

/-- `date.replace(hour=0, minute=0, second=0, microsecond=0)` as used by
`delete_existing_data`. -/
def startOfDay (t : PyDateTime) : PyDateTime :=
  { t with tod := 0 }

/-- Membership in the 24-hour deletion window
`{"$gte": start_of_day, "$lt": start_of_day + 1 day}` built by
`delete_existing_data` from the datetime `d`. -/
def inDeleteWindow (d ts : PyDateTime) : Bool :=
  decide (instant (startOfDay d) ≤ instant ts) &&
    decide (instant ts < instant (startOfDay d) + usPerDay)

/-- Membership in the window `[combine(day, 00:00 UTC), +1 day)` used by
`recover_last_day_data` to fetch all documents of the last stored day. -/
def inUTCDayWindow (day : Int) (ts : PyDateTime) : Bool :=
  decide (day * usPerDay ≤ instant ts) &&
    decide (instant ts < (day + 1) * usPerDay)

/-- Leap-year test of the proleptic Gregorian calendar, as used by Python's
`datetime` for date validation. -/
def isLeapYear (y : Nat) : Bool :=
  decide ((y % 4 = 0 ∧ y % 100 ≠ 0) ∨ y % 400 = 0)

/-- Number of days in a month of the Gregorian calendar. -/
def daysInMonth (y m : Nat) : Nat :=
  if m = 2 then (if isLeapYear y then 29 else 28)
  else if m = 4 ∨ m = 6 ∨ m = 9 ∨ m = 11 then 30
  else 31

/-- The numeric value of a decimal digit character. -/
def digitVal (c : Char) : Nat := c.toNat - 48

/-- `datetime.strptime(s, "%Y%m%d").date()`, first half: parse the 8-digit
string into a (year, month, day) triple, failing (`ValueError`) on malformed
input exactly when `strptime` would. -/
def parseYYYYMMDD (s : String) : Option (Nat × Nat × Nat) :=
  match s.toList with
  | [y1, y2, y3, y4, m1, m2, d1, d2] =>
      if (y1.isDigit && y2.isDigit && y3.isDigit && y4.isDigit &&
          m1.isDigit && m2.isDigit && d1.isDigit && d2.isDigit) then
        let y := ((digitVal y1 * 10 + digitVal y2) * 10 + digitVal y3) * 10 +
          digitVal y4
        let m := digitVal m1 * 10 + digitVal m2
        let d := digitVal d1 * 10 + digitVal d2
        if 1 ≤ m ∧ m ≤ 12 ∧ 1 ≤ d ∧ d ≤ daysInMonth y m then some (y, m, d)
        else none
      else none
  | _ => none

/-- `datetime.strptime(s, "%Y%m%d").date()`, second half: the epoch day number
of a Gregorian civil date (standard days-from-civil algorithm), linking the
parsed calendar date to the `day` field of `PyDateTime`. -/
def civilToDay (y m d : Nat) : Int :=
  let yy : Int := if m ≤ 2 then (y : Int) - 1 else (y : Int)
  let era : Int := yy.ediv 400
  let yoe : Int := yy - era * 400
  let mp : Int := if m > 2 then (m : Int) - 3 else (m : Int) + 9
  let doy : Int := (153 * mp + 2).ediv 5 + (d : Int) - 1
  let doe : Int := yoe * 365 + yoe.ediv 4 - yoe.ediv 100 + doy
  era * 146097 + doe - 719468

/-- Epoch day number of the date parsed from a `"YYYYMMDD"` string. -/
def parsedDay (s : String) : Option Int :=
  (parseYYYYMMDD s).map (fun p => civilToDay p.1 p.2.1 p.2.2)

/-- One row of a tabular batch handed to a loader: symbol, event timestamp and
an opaque numeric payload standing for the open/high/low/close/volume fields. -/
structure Row where
  symbol : String
  ts : PyDateTime
  payload : Int
deriving DecidableEq, Repr

/-- One stored document of the time-series collection: a row plus the
`date_load_iso_utc` ingestion stamp added at load time. -/
structure Rec where
  symbol : String
  ts : PyDateTime
  payload : Int
  date_load_iso_utc : Nat
deriving DecidableEq, Repr

/-- Forgets the ingestion stamp of a stored document; two documents are "the
same record" when their `strip`s agree. -/
def Rec.strip (r : Rec) : Row :=
  { symbol := r.symbol, ts := r.ts, payload := r.payload }

/-- Stamps a batch row into a stored document, modelling
`df['date_load_iso_utc'] = current_utc.strftime(...)` followed by
`insert_many`. -/
def stampRow (stamp : Nat) (r : Row) : Rec :=
  { symbol := r.symbol, ts := r.ts, payload := r.payload,
    date_load_iso_utc := stamp }

/-- `BinanceAPILoad.delete_existing_data` (identical in
`YFinanceTickersLoad`): delete every document whose `symbol` equals the given
symbol and whose `timestamp` falls in the 24-hour window of the given date. -/
def delete_existing_data (store : List Rec) (symbol : String) (date : PyDateTime) :
    List Rec :=
  store.filter (fun r => !(r.symbol == symbol && inDeleteWindow date r.ts))

/-- Result dictionary of the insert step, `{"inserted_count": n}`. -/
structure InsertResult where
  inserted_count : Nat
deriving DecidableEq, Repr

/-- `BinanceAPILoad.insert_crypto_data` (the body of `insert_market_data` in
`YFinanceTickersLoad` is identical): normalise the batch timestamps to UTC;
if the batch is non-empty, delete existing data for the symbol and date taken
from the batch's FIRST row; stamp `date_load_iso_utc`; append the records.
The whole body runs inside `try/except`: when the store raises (modelled by
the `insertErr` oracle for `insert_many`), the handler logs and returns the
normal dictionary `{"inserted_count": 0}` — the function never re-raises,
which is why its result is always `.ok`. -/
def insert_crypto_data (store : List Rec) (df : List Row) (stamp : Nat)
    (insertErr : Option PyError) : List Rec × Except PyError InsertResult :=
  let rows := df.map (fun r => { r with ts := toUTC r.ts })
  let store1 :=
    match df with
    | [] => store
    | r0 :: _ => delete_existing_data store r0.symbol (toUTC r0.ts)
  match insertErr with
  | some _ => (store1, .ok ⟨0⟩)
  | none => (store1 ++ rows.map (stampRow stamp), .ok ⟨rows.length⟩)

/-- `find_one({"symbol": symbol}, sort=[("timestamp", -1)])`: some document of
the symbol with maximal timestamp instant (ties broken by first occurrence),
or `none` when no document for the symbol exists. -/
def findMostRecent (store : List Rec) (symbol : String) : Option Rec :=
  (store.filter (fun r => r.symbol == symbol)).foldl
    (fun acc r =>
      match acc with
      | none => some r
      | some b => if instant b.ts < instant r.ts then some r else some b)
    none

/-- The per-document timestamp rewrite shared by both recovery tiers:
`datetime.combine(new_date, ts.time(), tzinfo=ts.tzinfo)` sets the calendar
day to the target day and keeps the wall time of day and the tzinfo. -/
def adjust_timestamp (newDay : Int) (ts : PyDateTime) : PyDateTime :=
  { day := newDay, tod := ts.tod, tz := ts.tz }

/-- `BinanceAPILoad.recover_last_day_data` (tier-1 recovery): find the most
recent stored document for the symbol; fetch every document of that last day;
rewrite each timestamp's date to the parsed `start_date` keeping the time of
day; restamp `date_load_iso_utc`.  A malformed `start_date` makes `strptime`
raise `ValueError`, which this method does not catch. -/
def recover_last_day_data (store : List Rec) (symbol : String)
    (start_date : String) (recStamp : Nat) : Except PyError (List Rec) :=
  match findMostRecent store symbol with
  | none => .ok []
  | some doc =>
      match store.filter
          (fun r => r.symbol == symbol && inUTCDayWindow doc.ts.day r.ts) with
      | [] => .ok []
      | fetched =>
          match parsedDay start_date with
          | none => .error (.valueError 0)
          | some newDay =>
              .ok (fetched.map (fun r =>
                { r with ts := adjust_timestamp newDay r.ts,
                         date_load_iso_utc := recStamp }))

/-- `BinanceAPILoad.recover_day_data_from_backup` (tier-2 recovery): read the
per-symbol backup JSON file (the `backup` oracle returns `none` when the file
is missing), apply the same date rewrite and restamping.  The `_id` stripping
of the file format is left implicit (documents carry no `_id` here). -/
def recover_day_data_from_backup (backup : String → Option (List Rec))
    (symbol : String) (start_date : String) (recStamp : Nat) :
    Except PyError (List Rec) :=
  match backup symbol with
  | none => .ok []
  | some docs =>
      match docs with
      | [] => .ok []
      | _ =>
          match parsedDay start_date with
          | none => .error (.valueError 0)
          | some newDay =>
              .ok (docs.map (fun r =>
                { r with ts := adjust_timestamp newDay r.ts,
                         date_load_iso_utc := recStamp }))

/-- Observable events of one `load` call, mirroring its log statements and
store interactions: the tier-1 recovery attempt (warning
"Attempting recovery using start_date"), the tier-2 attempt (warning
"Attempting recovery from backup", the only point where the snapshot file is
read), the per-symbol give-up (error "Recovery from backup failed"), the skip
of an empty batch when no `start_date` is given, a completed insert step, and
the logged insert-step exception. -/
inductive Event where
  | recoveryStart (symbol : String)
  | tier2Start (symbol : String)
  | recoveryFailed (symbol : String)
  | skipNoData (symbol : String)
  | inserted (symbol : String) (count : Nat)
  | insertError (symbol : String)
deriving DecidableEq, Repr

/-- The `try/except` block at the end of each `load` iteration: call
`insert_crypto_data` (which itself never raises), then `strptime(start_date)`
for the log line; a `ValueError` from the latter is caught and logged. -/
def insertStep (oracle : String → Option PyError) (store : List Rec)
    (symbol : String) (rows : List Row) (start_date : String) (stamp : Nat)
    (pre : List Event) : Except PyError (List Rec × List Event) :=
  match insert_crypto_data store rows stamp (oracle symbol) with
  | (store2, .ok res) =>
      match parsedDay start_date with
      | some _ => .ok (store2, pre ++ [.inserted symbol res.inserted_count])
      | none => .ok (store2, pre ++ [.insertError symbol])
  | (store2, .error _) => .ok (store2, pre ++ [.insertError symbol])

/-- One iteration of `BinanceAPILoad.load` for a symbol and its batch: an
empty batch with a truthy `start_date` triggers tier-1 then (only on an empty
tier-1 result) tier-2 recovery, giving up on the symbol when both are empty;
an empty batch with falsy `start_date` is skipped; a non-empty batch goes to
the insert step.  Recovery runs outside the `try`, so a `ValueError` from a
malformed `start_date` propagates. -/
def loadSymbol (backup : String → Option (List Rec))
    (oracle : String → Option PyError) (start_date : String)
    (stamp recStamp : Nat) (store : List Rec) (symbol : String)
    (df : List Row) : Except PyError (List Rec × List Event) :=
  if df.isEmpty ∧ start_date ≠ "" then do
    let tier1 ← recover_last_day_data store symbol start_date recStamp
    if tier1.isEmpty then do
      let tier2 ← recover_day_data_from_backup backup symbol start_date recStamp
      if tier2.isEmpty then
        .ok (store, [.recoveryStart symbol, .tier2Start symbol,
                     .recoveryFailed symbol])
      else
        insertStep oracle store symbol (tier2.map Rec.strip) start_date stamp
          [.recoveryStart symbol, .tier2Start symbol]
    else
      insertStep oracle store symbol (tier1.map Rec.strip) start_date stamp
        [.recoveryStart symbol]
  else if df.isEmpty then
    .ok (store, [.skipNoData symbol])
  else
    insertStep oracle store symbol df start_date stamp []

/-- `BinanceAPILoad.load`: iterate `loadSymbol` over the symbol/batch pairs in
order, threading the store and concatenating the event traces. -/
def load (backup : String → Option (List Rec))
    (oracle : String → Option PyError) (start_date : String)
    (stamp recStamp : Nat) :
    List (String × List Row) → List Rec → Except PyError (List Rec × List Event)
  | [], store => .ok (store, [])
  | (symbol, df) :: rest, store => do
      let (store1, evs) ← loadSymbol backup oracle start_date stamp recStamp
        store symbol df
      let (store2, evs2) ← load backup oracle start_date stamp recStamp rest
        store1
      .ok (store2, evs ++ evs2)

/-- One row of a macro-indicator batch handed to `PyFredAPILoad`: series id,
observation date (a daily-granularity datetime, as an epoch day number) and
the observation value (opaque payload). -/
structure MacroRow where
  series_id : String
  date : Int
  value : Int
deriving DecidableEq, Repr

/-- One stored document of the macro-indicator collection. -/
structure MacroRec where
  series_id : String
  date : Int
  value : Int
deriving DecidableEq, Repr

/-- Stores a macro batch row as a document. -/
def MacroRow.toRec (r : MacroRow) : MacroRec :=
  { series_id := r.series_id, date := r.date, value := r.value }

/-- `df['date'].max()` over a non-empty macro batch. -/
def mostRecentDate (r0 : MacroRow) (rest : List MacroRow) : Int :=
  rest.foldl (fun acc r => max acc r.date) r0.date

/-- `PyFredAPILoad.insert_macroeconomic_data`: an empty frame inserts nothing;
otherwise, if the collection already holds a document for the batch's
`series_id` with `date >= ` the batch's most recent date, the whole insertion
is skipped; otherwise all rows are appended.  No document is ever deleted. -/
def insert_macroeconomic_data (store : List MacroRec) (df : List MacroRow) :
    List MacroRec × InsertResult :=
  match df with
  | [] => (store, ⟨0⟩)
  | r0 :: rest =>
      let recent := mostRecentDate r0 rest
      if store.any (fun r => r.series_id == r0.series_id && recent ≤ r.date) then
        (store, ⟨0⟩)
      else
        (store ++ df.map MacroRow.toRec, ⟨df.length⟩)

/-- `PyFredAPILoad.load`: iterate over the series; an empty frame is logged
("No data to insert for series_id") and skipped — no recovery of any kind —
and a non-empty frame goes to `insert_macroeconomic_data`.  The signature has
no `target_date` parameter at all.  Events reuse the loader `Event` type so
that the absence of recovery events is expressible. -/
def pyfredLoad (store : List MacroRec) :
    List (String × List MacroRow) → List MacroRec × List Event
  | [] => (store, [])
  | (series, df) :: rest =>
      match df with
      | [] =>
          let (store2, evs) := pyfredLoad store rest
          (store2, .skipNoData series :: evs)
      | _ =>
          let (store1, res) := insert_macroeconomic_data store df
          let (store2, evs) := pyfredLoad store1 rest
          (store2, .inserted series res.inserted_count :: evs)

/-- Events of one `retry_on_connection_error` wrapper run: an invocation of
the wrapped operation (`call`), a `time.sleep(current_delay)` and the
`args[0]._db = None` cache invalidation that follows it. -/
inductive REvent where
  | call (attempt : Nat)
  | sleep (d : ℚ)
  | invalidate
deriving DecidableEq, Repr

/-- Terminal outcome of the wrapper when it does not return normally: the
re-raised Python error, or Python's `raise None` `TypeError` when the loop
body never ran (`max_attempts = 0`). -/
inductive RetryRaise where
  | raised (e : PyError)
  | raisedNone
deriving DecidableEq, Repr

/-- The `for attempt in range(max_attempts)` loop of
`retry_on_connection_error`, with `remaining = max_attempts - attempt` as the
structural fuel.  On a connection error with attempts remaining it sleeps the
current delay, multiplies it by `backoff`, invalidates the caller's `_db`
cache and retries; on a connection error at the last attempt the loop ends
and the last error is re-raised; any other error propagates immediately. -/
def retryAux (f : Nat → Except PyError α) (backoff : ℚ) :
    Nat → Nat → ℚ → Except RetryRaise α × List REvent
  | 0, _, _ => (.error .raisedNone, [])
  | r + 1, attempt, cur =>
      match f attempt with
      | .ok a => (.ok a, [.call attempt])
      | .error e =>
          if e.isConnErr then
            if r = 0 then
              (.error (.raised e), [.call attempt])
            else
              let next := retryAux f backoff r (attempt + 1) (cur * backoff)
              (next.1, .call attempt :: .sleep cur :: .invalidate :: next.2)
          else
            (.error (.raised e), [.call attempt])

/-- `retry_on_connection_error(max_attempts, delay, backoff)` applied to an
operation `f` (given as the sequence of outcomes of its invocations). -/
def retryRun (f : Nat → Except PyError α) (maxAttempts : Nat)
    (delay backoff : ℚ) : Except RetryRaise α × List REvent :=
  retryAux f backoff maxAttempts 0 delay

/-- Number of invocations of the wrapped operation in a trace. -/
def callCount (tr : List REvent) : Nat :=
  tr.countP (fun e => match e with | .call _ => true | _ => false)

/-- The sleep durations of a trace, in order. -/
def sleepsOf (tr : List REvent) : List ℚ :=
  tr.filterMap (fun e => match e with | .sleep d => some d | _ => none)

/-- Every `sleep` in the trace is immediately followed by a cache
invalidation. -/
def sleepsInvalidate : List REvent → Bool
  | [] => true
  | .sleep _ :: rest =>
      match rest with
      | .invalidate :: rest2 => sleepsInvalidate rest2
      | _ => false
  | _ :: rest => sleepsInvalidate rest

/-- The ascending date list `[a, a+1, ..., b]` walked by the backfill loops
(`current_date <= end_date`, stepping by one day). -/
def rangeAsc (a b : Int) : List Int :=
  if a ≤ b then a :: rangeAsc (a + 1) b else []
termination_by (b + 1 - a).toNat
decreasing_by omega

/-- `LoaderService.backfill_binance_api_crypto_data` /
`backfill_yfinance_market_data`: starting from `start_date`, call the per-date
load operation once per date in ascending order.  The loop body has no
`try/except`, so the first date whose load raises aborts the loop and the
exception propagates; the result is the list of dates actually processed and
the propagated error, if any. -/
def backfillRange (op : Int → Option PyError) (cur endD : Int) :
    List Int × Option PyError :=
  if cur ≤ endD then
    match op cur with
    | none =>
        let r := backfillRange op (cur + 1) endD
        (cur :: r.1, r.2)
    | some e => ([cur], some e)
  else ([], none)
termination_by (endD + 1 - cur).toNat
decreasing_by omega

/-- `MongoDBConnectionFactory._client_lifetime`: cached clients are recycled
after one hour (seconds). -/
def clientLifetime : Int := 3600

/-- Class-level state of `MongoDBConnectionFactory`: the cached client (as an
abstract id), its creation time, the next fresh client id, and the ids already
closed.  Successful establishment always hands out `nextId`, so ids of newly
created clients are fresh by construction. -/
structure FactoryState where
  cachedClient : Option Nat
  clientCreationTime : Int
  nextId : Nat
  closed : List Nat
deriving DecidableEq, Repr

/-- Outcome of the establishment `while` loop inside `create_client`:
connected with the given attempt index at the given elapsed time; exited the
loop and re-raised the recorded last error (`raise ConnectionFailure(msg)`
with `last_error` possibly still `None`); or exhausted the model's fuel. -/
inductive EstOut where
  | connected (attemptIdx : Nat) (successElapsed : Int)
  | failedOut (lastErr : Option PyError) (attemptsMade : Nat)
  | fuelOut
deriving DecidableEq, Repr

/-- The `while time.time() - start_time < max_retry_time` establishment loop
of `create_client`.  `outcome k` is the result of the `k`-th
`MongoClient(...)` + `ping` attempt (`none` = success), `dur k` the wall time
the attempt consumes.  On failure the attempt counter is bumped, the wait is
`min(30, 2 ** attempt)`, and the loop sleeps only when the wait still fits in
the budget, otherwise it breaks and the last error is raised. -/
def establishLoop (outcome : Nat → Option PyError) (dur : Nat → Int)
    (maxRetry : Int) :
    Nat → Int → Nat → Option PyError → EstOut
  | 0, _, _, _ => .fuelOut
  | fuel + 1, elapsed, attempt, lastErr =>
      if elapsed < maxRetry then
        match outcome attempt with
        | none => .connected attempt (elapsed + dur attempt)
        | some e =>
            let attempt1 := attempt + 1
            let wait : Int := min 30 (2 ^ attempt1)
            let elapsed1 := elapsed + dur attempt
            if elapsed1 + wait < maxRetry then
              establishLoop outcome dur maxRetry fuel (elapsed1 + wait)
                attempt1 (some e)
            else .failedOut (some e) attempt1
      else .failedOut lastErr attempt

/-- Result of one `create_client` call. -/
inductive CCResult where
  | ok (client : Nat)
  | connFailure (lastErr : Option PyError)
  | fuelOut
deriving DecidableEq, Repr

/-- The locked slow path of `create_client`: re-check the cached client inside
the lock (freshly created by another thread in the concurrent setting); if
still stale or unhealthy, close and drop the old client, then run the
establishment loop; on success cache the new client with a fresh creation
timestamp. -/
def createClientLocked (ping : Nat → Bool) (outcome : Nat → Option PyError)
    (dur : Nat → Int) (maxRetry : Int) (now : Int) (fuel : Nat)
    (st : FactoryState) : CCResult × FactoryState :=
  match st.cachedClient with
  | some c =>
      if now - st.clientCreationTime < clientLifetime ∧ ping c then
        (.ok c, st)
      else
        let st1 : FactoryState :=
          { st with cachedClient := none, closed := st.closed ++ [c] }
        match establishLoop outcome dur maxRetry fuel 0 0 none with
        | .connected _ succElapsed =>
            (.ok st1.nextId,
             { st1 with cachedClient := some st1.nextId,
                        clientCreationTime := now + succElapsed,
                        nextId := st1.nextId + 1 })
        | .failedOut le _ => (.connFailure le, st1)
        | .fuelOut => (.fuelOut, st1)
  | none =>
      match establishLoop outcome dur maxRetry fuel 0 0 none with
      | .connected _ succElapsed =>
          (.ok st.nextId,
           { st with cachedClient := some st.nextId,
                     clientCreationTime := now + succElapsed,
                     nextId := st.nextId + 1 })
      | .failedOut le _ => (.connFailure le, st)
      | .fuelOut => (.fuelOut, st)

/-- `MongoDBConnectionFactory.create_client`, sequential semantics: the
lock-free fast path returns the cached client when it is younger than the TTL
and answers the liveness ping; otherwise the slow path of
`createClientLocked` runs.  `ping c` models `c.admin.command('ping')`
succeeding. -/
def create_client (ping : Nat → Bool) (outcome : Nat → Option PyError)
    (dur : Nat → Int) (maxRetry : Int) (now : Int) (fuel : Nat)
    (st : FactoryState) : CCResult × FactoryState :=
  match st.cachedClient with
  | some c =>
      if now - st.clientCreationTime < clientLifetime ∧ ping c then
        (.ok c, st)
      else createClientLocked ping outcome dur maxRetry now fuel st
  | none => createClientLocked ping outcome dur maxRetry now fuel st

/-- Program counter of a thread running `create_client`, one location per
atomic access to the shared class state.  The fast path reads the cached
client, tests its age, pings it, and then `return`s by re-reading the shared
field; the slow path waits on the class lock, re-checks inside it, closes the
old client (`_cached_client.close()`) and only in a separate subsequent step
clears the shared reference (`_cached_client = None`) — between the two, the
class attribute still points at the already-closed client — then establishes
a new client (always successfully in this model) and returns it while
releasing the lock. -/
inductive PC where
  | fastRead
  | fastTest
  | fastPing
  | fastReturn
  | lockWait
  | recheck
  | closeOld
  | clearCached
  | establish
  | lockReturn
  | threadDone
deriving DecidableEq, Repr

/-- Local state of one thread: its location, the cached-client value it read
on the fast path, the client it created in the locked section, and its result
once `create_client` returned (`some v`; `v` is the returned client, which
the fast path re-reads from the shared field and can therefore be `none`). -/
structure Thread where
  pc : PC
  readClient : Option Nat
  newClient : Option Nat
  result : Option (Option Nat)
deriving DecidableEq, Repr

/-- A thread that has not yet entered `create_client`. -/
def Thread.init : Thread :=
  { pc := .fastRead, readClient := none, newClient := none, result := none }

/-- Shared class state of `MongoDBConnectionFactory` plus the two competing
threads (`false` and `true`). -/
structure CConfig where
  t0 : Thread
  t1 : Thread
  cached : Option Nat
  creationTime : Int
  closed : List Nat
  lock : Option Bool
  nextId : Nat
deriving DecidableEq, Repr

/-- The thread of a configuration selected by id. -/
def CConfig.thr (cfg : CConfig) (tid : Bool) : Thread :=
  if tid then cfg.t1 else cfg.t0

/-- Replace the selected thread. -/
def CConfig.setThr (cfg : CConfig) (tid : Bool) (t : Thread) : CConfig :=
  if tid then { cfg with t1 := t } else { cfg with t0 := t }

/-- One atomic step of thread `tid` in `create_client`.  `ping tid c` is the
outcome of that thread's liveness ping of client `c` (health can differ
between threads: pings are separate network operations).  A thread at
`lockWait` whose lock is held, or a finished thread, does not move.  The
source's `_cached_client.close()` and the following `_cached_client = None`
are two separate statements, hence two separate atomic steps (`closeOld`,
then `clearCached`): between them the shared attribute still references the
closed client. -/
def cstep (ping : Bool → Nat → Bool) (now : Int) (cfg : CConfig) (tid : Bool) :
    CConfig :=
  let t := cfg.thr tid
  match t.pc with
  | .fastRead =>
      match cfg.cached with
      | none => cfg.setThr tid { t with readClient := none, pc := .lockWait }
      | some c => cfg.setThr tid { t with readClient := some c, pc := .fastTest }
  | .fastTest =>
      if now - cfg.creationTime < clientLifetime then
        cfg.setThr tid { t with pc := .fastPing }
      else
        cfg.setThr tid { t with pc := .lockWait }
  | .fastPing =>
      match t.readClient with
      | some c =>
          if ping tid c then cfg.setThr tid { t with pc := .fastReturn }
          else cfg.setThr tid { t with pc := .lockWait }
      | none => cfg.setThr tid { t with pc := .lockWait }
  | .fastReturn =>
      cfg.setThr tid { t with result := some cfg.cached, pc := .threadDone }
  | .lockWait =>
      match cfg.lock with
      | none =>
          { cfg.setThr tid { t with pc := .recheck } with lock := some tid }
      | some _ => cfg
  | .recheck =>
      match cfg.cached with
      | some c =>
          if now - cfg.creationTime < clientLifetime ∧ ping tid c then
            { cfg.setThr tid
                { t with result := some (some c), pc := .threadDone } with
              lock := none }
          else cfg.setThr tid { t with pc := .closeOld }
      | none => cfg.setThr tid { t with pc := .closeOld }
  | .closeOld =>
      match cfg.cached with
      | some c =>
          { cfg.setThr tid { t with pc := .clearCached } with
            closed := cfg.closed ++ [c] }
      | none => cfg.setThr tid { t with pc := .establish }
  | .clearCached =>
      { cfg.setThr tid { t with pc := .establish } with cached := none }
  | .establish =>
      { cfg.setThr tid { t with newClient := some cfg.nextId, pc := .lockReturn }
          with
        cached := some cfg.nextId, creationTime := now,
        nextId := cfg.nextId + 1 }
  | .lockReturn =>
      { cfg.setThr tid { t with result := some t.newClient, pc := .threadDone }
          with
        lock := none }
  | .threadDone => cfg

/-- Run a schedule (a list of thread ids) from a configuration. -/
def crun (ping : Bool → Nat → Bool) (now : Int) (cfg : CConfig)
    (sched : List Bool) : CConfig :=
  sched.foldl (cstep ping now) cfg

/-- Locations at which a thread holds the class lock (the locked critical
section of `create_client`). -/
def inCrit : PC → Bool
  | .recheck => true
  | .closeOld => true
  | .clearCached => true
  | .establish => true
  | .lockReturn => true
  | _ => false

/-- Lock-ownership invariant: a thread inside the critical section is the
lock holder.  Two threads in the critical section at once would both have to
own the single lock, which is impossible. -/
def LockInv (cfg : CConfig) : Prop :=
  (inCrit cfg.t0.pc = true → cfg.lock = some false) ∧
  (inCrit cfg.t1.pc = true → cfg.lock = some true)

section RetryLemmas

@[simp] lemma callCount_nil : callCount [] = 0 := rfl

@[simp] lemma callCount_call (n : Nat) (tr : List REvent) :
    callCount (.call n :: tr) = callCount tr + 1 := by
  simp [callCount, List.countP_cons]

@[simp] lemma callCount_sleep (d : ℚ) (tr : List REvent) :
    callCount (.sleep d :: tr) = callCount tr := by
  simp [callCount, List.countP_cons]

@[simp] lemma callCount_invalidate (tr : List REvent) :
    callCount (.invalidate :: tr) = callCount tr := by
  simp [callCount, List.countP_cons]

@[simp] lemma sleepsOf_nil : sleepsOf [] = [] := rfl

@[simp] lemma sleepsOf_call (n : Nat) (tr : List REvent) :
    sleepsOf (.call n :: tr) = sleepsOf tr := rfl

@[simp] lemma sleepsOf_sleep (d : ℚ) (tr : List REvent) :
    sleepsOf (.sleep d :: tr) = d :: sleepsOf tr := rfl

@[simp] lemma sleepsOf_invalidate (tr : List REvent) :
    sleepsOf (.invalidate :: tr) = sleepsOf tr := rfl

@[simp] lemma sleepsInvalidate_nil : sleepsInvalidate [] = true := rfl

@[simp] lemma sleepsInvalidate_call (n : Nat) (tr : List REvent) :
    sleepsInvalidate (.call n :: tr) = sleepsInvalidate tr := rfl

@[simp] lemma sleepsInvalidate_sleep_invalidate (d : ℚ) (tr : List REvent) :
    sleepsInvalidate (.sleep d :: .invalidate :: tr) = sleepsInvalidate tr := rfl

/-- Behaviour of one wrapper run on an operation that raises a transient
connection error at every invocation: the terminal raise is the last
attempt's error, the operation is invoked once per attempt, the sleeps follow
the exponential-backoff formula, and every sleep is followed by a cache
invalidation. -/
lemma retryAux_conn {α : Type} (f : Nat → Except PyError α)
    (e : Nat → PyError) (backoff : ℚ)
    (hf : ∀ n, f n = .error (e n)) (hc : ∀ n, (e n).isConnErr = true) :
    ∀ (r attempt : Nat) (cur : ℚ), 1 ≤ r →
      (retryAux f backoff r attempt cur).1
          = .error (.raised (e (attempt + r - 1))) ∧
      callCount (retryAux f backoff r attempt cur).2 = r ∧
      sleepsOf (retryAux f backoff r attempt cur).2
          = (List.range (r - 1)).map (fun k => cur * backoff ^ k) ∧
      sleepsInvalidate (retryAux f backoff r attempt cur).2 = true := by
  intro r
  induction r with
  | zero => intro attempt cur h; exact absurd h (by omega)
  | succ r ih =>
      intro attempt cur _
      by_cases hr : r = 0
      · subst hr
        simp [retryAux, hf attempt, hc attempt]
      · have hb := ih (attempt + 1) (cur * backoff) (by omega)
        have hrw :
            retryAux f backoff (r + 1) attempt cur
              = ((retryAux f backoff r (attempt + 1) (cur * backoff)).1,
                 .call attempt :: .sleep cur :: .invalidate ::
                   (retryAux f backoff r (attempt + 1) (cur * backoff)).2) := by
          simp [retryAux, hf attempt, hc attempt, hr]
        refine ⟨?_, ?_, ?_, ?_⟩
        · rw [hrw]
          simpa [show attempt + 1 + r - 1 = attempt + (r + 1) - 1 by omega]
            using hb.1
        · rw [hrw]; simp [hb.2.1]
        · rw [hrw]
          simp only [sleepsOf_call, sleepsOf_sleep, sleepsOf_invalidate,
            hb.2.2.1]
          have hr1 : r + 1 - 1 = (r - 1) + 1 := by omega
          rw [hr1, List.range_succ_eq_map, List.map_cons, List.map_map]
          simp only [pow_zero, mul_one, List.cons.injEq, true_and]
          refine List.map_congr_left ?_
          intro k _
          simp only [Function.comp_apply, pow_succ]
          ring
        · rw [hrw]; simp [hb.2.2.2]

end RetryLemmas

/-- C2.  The retry policy `retry_on_connection_error(max_attempts, delay,
backoff)`: an operation raising a transient connection error on every
invocation is invoked exactly `max_attempts` times, with sleeps
`delay * backoff ^ (attempt - 1)` each followed by invalidation of the
caller's cached `_db` handle, after which the wrapper re-raises the last
(connection) error; an operation raising a non-retryable error is invoked
exactly once and that error propagates with no sleep and no retry. -/
theorem c2_retry_policy (α : Type) (m : Nat) (delay backoff : ℚ)
    (hm : 1 ≤ m) :
    (∀ (f : Nat → Except PyError α) (e : Nat → PyError),
      (∀ n, f n = .error (e n)) → (∀ n, (e n).isConnErr = true) →
      (retryRun f m delay backoff).1 = .error (.raised (e (m - 1))) ∧
      (e (m - 1)).isConnErr = true ∧
      callCount (retryRun f m delay backoff).2 = m ∧
      sleepsOf (retryRun f m delay backoff).2
          = (List.range (m - 1)).map (fun k => delay * backoff ^ k) ∧
      sleepsInvalidate (retryRun f m delay backoff).2 = true) ∧
    (∀ (g : Nat → Except PyError α) (e : PyError),
      g 0 = .error e → e.isConnErr = false →
      (retryRun g m delay backoff).1 = .error (.raised e) ∧
      (retryRun g m delay backoff).2 = [.call 0]) := by
  constructor
  · intro f e hf hc
    have h := retryAux_conn f e backoff hf hc m 0 delay hm
    exact ⟨by simpa [retryRun] using h.1, hc (m - 1),
      by simpa [retryRun] using h.2.1,
      by simpa [retryRun] using h.2.2.1,
      by simpa [retryRun] using h.2.2.2⟩
  · intro g e hg he
    obtain ⟨m', rfl⟩ : ∃ m', m = m' + 1 := ⟨m - 1, by omega⟩
    constructor <;> simp [retryRun, retryAux, hg, he]

/-- Witness for C2 at `max_attempts = 3`, `delay = 1`, `backoff = 2`, an
always-failing transient operation and an operation failing with a
non-retryable error. -/
theorem c2_witness :
    (retryRun (fun _ => (.error (.connectionFailure 0) : Except PyError Unit))
        3 1 2).1 = .error (.raised (.connectionFailure 0)) ∧
    callCount (retryRun
        (fun _ => (.error (.connectionFailure 0) : Except PyError Unit))
        3 1 2).2 = 3 ∧
    sleepsOf (retryRun
        (fun _ => (.error (.connectionFailure 0) : Except PyError Unit))
        3 1 2).2 = (List.range 2).map (fun k => 1 * 2 ^ k) ∧
    (retryRun (fun _ => (.error (.operationFailure 1) : Except PyError Unit))
        3 1 2).1 = .error (.raised (.operationFailure 1)) ∧
    (retryRun (fun _ => (.error (.operationFailure 1) : Except PyError Unit))
        3 1 2).2 = [.call 0] := by
  obtain ⟨hA, hB⟩ := c2_retry_policy Unit 3 1 2 (by norm_num)
  obtain ⟨h1, _, h2, h3, _⟩ := hA (fun _ => .error (.connectionFailure 0))
    (fun _ => .connectionFailure 0) (fun _ => rfl) (fun _ => rfl)
  obtain ⟨h4, h5⟩ := hB (fun _ => .error (.operationFailure 1))
    (.operationFailure 1) rfl rfl
  exact ⟨h1, h2, h3, h4, h5⟩

section BackfillLemmas

variable (op : Int → Option PyError)

lemma backfillRange_all_ok :
    ∀ (n : Nat) (a b : Int), (b + 1 - a).toNat = n →
      (∀ d, a ≤ d → d ≤ b → op d = none) →
      backfillRange op a b = (rangeAsc a b, none) := by
  intro n
  induction n with
  | zero =>
      intro a b hn _
      have hab : ¬ a ≤ b := by omega
      rw [backfillRange, rangeAsc]
      simp [hab]
  | succ n ih =>
      intro a b hn h
      have hab : a ≤ b := by omega
      have hop := h a le_rfl hab
      rw [backfillRange, rangeAsc]
      simp only [hab, if_true, hop]
      rw [ih (a + 1) b (by omega) (fun d h1 h2 => h d (by omega) h2)]

lemma backfillRange_first_fail (e : PyError) :
    ∀ (n : Nat) (a b d : Int), (d - a).toNat = n →
      a ≤ d → d ≤ b →
      (∀ x, a ≤ x → x < d → op x = none) → op d = some e →
      backfillRange op a b = (rangeAsc a d, some e) := by
  intro n
  induction n with
  | zero =>
      intro a b d hn h1 h2 _ hd
      have had : a = d := by omega
      subst had
      rw [backfillRange, rangeAsc]
      simp only [h2, if_true, hd, le_refl, if_true]
      rw [rangeAsc]
      simp [show ¬ a + 1 ≤ a by omega]
  | succ n ih =>
      intro a b d hn h1 h2 hpre hd
      have hab : a ≤ b := by omega
      have hop := hpre a le_rfl (by omega)
      rw [backfillRange, rangeAsc]
      simp only [hab, if_true, hop, show a ≤ d from h1, if_true]
      rw [ih (a + 1) b d (by omega) (by omega) h2
        (fun x hx1 hx2 => hpre x (by omega) hx2) hd]

lemma rangeAsc_mem_le :
    ∀ (n : Nat) (a b : Int), (b + 1 - a).toNat = n →
      ∀ x ∈ rangeAsc a b, a ≤ x := by
  intro n
  induction n with
  | zero =>
      intro a b hn x hx
      rw [rangeAsc] at hx
      simp [show ¬ a ≤ b by omega] at hx
  | succ n ih =>
      intro a b hn x hx
      rw [rangeAsc] at hx
      by_cases hab : a ≤ b
      · simp only [hab, if_true, List.mem_cons] at hx
        rcases hx with rfl | hx
        · exact le_rfl
        · have := ih (a + 1) b (by omega) x hx
          omega
      · simp [hab] at hx

lemma rangeAsc_chain :
    ∀ (n : Nat) (a b : Int), (b + 1 - a).toNat = n →
      (rangeAsc a b).Chain' (· < ·) := by
  intro n
  induction n with
  | zero =>
      intro a b hn
      rw [rangeAsc]
      simp [show ¬ a ≤ b by omega]
  | succ n ih =>
      intro a b hn
      have hab : a ≤ b := by omega
      rw [rangeAsc]
      simp only [hab, if_true]
      refine List.chain'_cons'.mpr ⟨?_, ih (a + 1) b (by omega)⟩
      intro y hy
      have hmem : y ∈ rangeAsc (a + 1) b := List.mem_of_mem_head? hy
      have := rangeAsc_mem_le ((b + 1 - (a + 1)).toNat) (a + 1) b rfl y hmem
      omega

end BackfillLemmas

/-- C7, counterexample.  A backfill over the two-day range `[0, 1]` where the
per-date load of day `0` raises: the loop processes day `0` only, the error
propagates out of the backfill (it is not caught), and day `1` — a remaining
date of the range — is never processed; the claim's "every remaining date in
the range is still processed" is false. -/
theorem c7_counterexample :
    (backfillRange
        (fun d => if d = 0 then some (.connectionFailure 5) else none) 0 1).1
      = [0] ∧
    (backfillRange
        (fun d => if d = 0 then some (.connectionFailure 5) else none) 0 1).2
      = some (.connectionFailure 5) ∧
    rangeAsc 0 1 = [0, 1] := by
  rw [backfillRange]
  rw [rangeAsc, rangeAsc, rangeAsc]
  norm_num

/-- C7, amended.  The backfill loops call the per-date load once per date in
strictly ascending order; when every date's load succeeds the whole range is
processed; but the loop body has no `try/except`, so the first date whose
load raises aborts the loop — the exception propagates to the backfill's own
caller and the remaining dates of the range are not processed. -/
theorem c7_backfill_sequential_abort (op : Int → Option PyError)
    (a b : Int) :
    ((∀ d, a ≤ d → d ≤ b → op d = none) →
      backfillRange op a b = (rangeAsc a b, none)) ∧
    (∀ (d : Int) (e : PyError), a ≤ d → d ≤ b →
      (∀ x, a ≤ x → x < d → op x = none) → op d = some e →
      backfillRange op a b = (rangeAsc a d, some e)) ∧
    (rangeAsc a b).Chain' (· < ·) := by
  refine ⟨?_, ?_, rangeAsc_chain ((b + 1 - a).toNat) a b rfl⟩
  · exact backfillRange_all_ok op ((b + 1 - a).toNat) a b rfl
  · intro d e h1 h2 h3 h4
    exact backfillRange_first_fail op e ((d - a).toNat) a b d rfl h1 h2 h3 h4

/-- Witness for C7 on the range `[0, 2]`: an all-succeeding load processes
`[0, 1, 2]`; a load failing at date `1` processes `[0, 1]` and propagates. -/
theorem c7_witness :
    backfillRange (fun _ => none) 0 2 = (rangeAsc 0 2, none) ∧
    backfillRange (fun d => if d = 1 then some (.valueError 3) else none) 0 2
      = (rangeAsc 0 1, some (.valueError 3)) ∧
    (rangeAsc 0 2).Chain' (· < ·) := by
  obtain ⟨h1, h2, h3⟩ := c7_backfill_sequential_abort (fun _ => none) 0 2
  obtain ⟨_, h5, _⟩ := c7_backfill_sequential_abort
    (fun d => if d = 1 then some (.valueError 3) else none) 0 2
  exact ⟨h1 (fun _ _ _ => rfl),
    h5 1 (.valueError 3) (by norm_num) (by norm_num)
      (fun x hx1 hx2 => by simp [show x ≠ 1 by omega]) (by norm_num), h3⟩

/-- C8, counterexample.  `PyFredAPILoad.load` given an empty batch for series
`"GDP"` logs "No data to insert" and moves on: no tier-1 live-store recovery
and no tier-2 snapshot recovery is ever attempted.  And for a non-empty batch
it does not replace same-day data by delete-then-insert: with a stored record
dated later than the batch, the insertion is skipped wholesale and the new
row is never stored. -/
theorem c8_counterexample :
    (pyfredLoad [] [("GDP", [])]).2 = [.skipNoData "GDP"] ∧
    Event.recoveryStart "GDP" ∉ (pyfredLoad [] [("GDP", [])]).2 ∧
    Event.tier2Start "GDP" ∉ (pyfredLoad [] [("GDP", [])]).2 ∧
    (insert_macroeconomic_data [⟨"GDP", 5, 1⟩] [⟨"GDP", 3, 2⟩]).1
      = [⟨"GDP", 5, 1⟩] ∧
    (⟨"GDP", 3, 2⟩ : MacroRec)
      ∉ (insert_macroeconomic_data [⟨"GDP", 5, 1⟩] [⟨"GDP", 3, 2⟩]).1 := by
  refine ⟨rfl, by decide, by decide, ?_, ?_⟩ <;>
    simp [insert_macroeconomic_data, mostRecentDate]

/-- C8, amended.  The macro-series loader does not implement the
RecoveryLoader protocol: its `load` has no `target_date` parameter; a series
with an empty batch is skipped outright (warning logged, no live-store and no
snapshot recovery, processing continues with the remaining series); a
non-empty batch is inserted only when the collection holds no record for the
series dated on or after the batch's most recent date (skip-if-exists, not
delete-then-insert); and no existing record is ever deleted. -/
theorem c8_pyfred_no_recovery (store : List MacroRec) (series : String)
    (rest : List (String × List MacroRow)) :
    pyfredLoad store ((series, []) :: rest)
      = ((pyfredLoad store rest).1,
         .skipNoData series :: (pyfredLoad store rest).2) ∧
    (∀ (r0 : MacroRow) (df : List MacroRow),
      (store.any (fun r => r.series_id == r0.series_id
          && mostRecentDate r0 df ≤ r.date) = true →
        insert_macroeconomic_data store (r0 :: df) = (store, ⟨0⟩)) ∧
      (store.any (fun r => r.series_id == r0.series_id
          && mostRecentDate r0 df ≤ r.date) = false →
        insert_macroeconomic_data store (r0 :: df)
          = (store ++ (r0 :: df).map MacroRow.toRec, ⟨(r0 :: df).length⟩))) ∧
    (∀ (df : List MacroRow) (r : MacroRec), r ∈ store →
      r ∈ (insert_macroeconomic_data store df).1) := by
  refine ⟨rfl, ?_, ?_⟩
  · intro r0 df
    constructor <;> intro h <;> simp [insert_macroeconomic_data, h]
  · intro df r hr
    match df with
    | [] => exact hr
    | r0 :: rest2 =>
        rw [insert_macroeconomic_data]
        split
        · exact hr
        · exact List.mem_append_left _ hr

/-- Witness for C8: the skip of an empty series, the skip-if-exists branch,
the insert branch, and preservation of an existing record, all at concrete
inputs. -/
theorem c8_witness :
    pyfredLoad [⟨"GDP", 5, 1⟩] [("UNRATE", [])]
      = ((pyfredLoad [⟨"GDP", 5, 1⟩] []).1,
         .skipNoData "UNRATE" :: (pyfredLoad [⟨"GDP", 5, 1⟩] []).2) ∧
    insert_macroeconomic_data [⟨"GDP", 5, 1⟩] [⟨"GDP", 3, 2⟩]
      = ([⟨"GDP", 5, 1⟩], ⟨0⟩) ∧
    insert_macroeconomic_data [⟨"GDP", 5, 1⟩] [⟨"GDP", 9, 2⟩]
      = ([⟨"GDP", 5, 1⟩] ++ [⟨"GDP", 9, 2⟩], ⟨1⟩) ∧
    (⟨"GDP", 5, 1⟩ : MacroRec)
      ∈ (insert_macroeconomic_data [⟨"GDP", 5, 1⟩] [⟨"GDP", 9, 2⟩]).1 := by
  obtain ⟨h1, h2, h3⟩ := c8_pyfred_no_recovery [⟨"GDP", 5, 1⟩] "UNRATE" []
  refine ⟨h1, ?_, ?_, ?_⟩
  · exact ((c8_pyfred_no_recovery [⟨"GDP", 5, 1⟩] "UNRATE" []).2.1
      ⟨"GDP", 3, 2⟩ []).1 (by decide)
  · exact ((c8_pyfred_no_recovery [⟨"GDP", 5, 1⟩] "UNRATE" []).2.1
      ⟨"GDP", 9, 2⟩ []).2 (by decide)
  · exact h3 [⟨"GDP", 9, 2⟩] ⟨"GDP", 5, 1⟩ (by decide)

/-- Decidable equality of `Except` results, for evaluating the embedded
operations at concrete inputs. -/
instance {ε α : Type} [DecidableEq ε] [DecidableEq α] :
    DecidableEq (Except ε α) := fun x y =>
  match x, y with
  | .ok a, .ok b =>
      if h : a = b then isTrue (by rw [h]) else isFalse (by simp [h])
  | .error e, .error f =>
      if h : e = f then isTrue (by rw [h]) else isFalse (by simp [h])
  | .ok _, .error _ => isFalse (by simp)
  | .error _, .ok _ => isFalse (by simp)

section RecoveryLemmas

/-- Membership in the rewritten document list produced by either recovery
tier: each output document comes from a source document, has its calendar day
set to the target day, and keeps the source's time of day and timezone. -/
lemma mem_rewrite {l : List Rec} {newDay : Int} {recStamp : Nat} {rec : Rec}
    (h : rec ∈ l.map (fun r =>
      { r with ts := adjust_timestamp newDay r.ts,
               date_load_iso_utc := recStamp })) :
    ∃ orig ∈ l, rec.symbol = orig.symbol ∧ rec.ts.day = newDay ∧
      rec.ts.tod = orig.ts.tod ∧ rec.ts.tz = orig.ts.tz := by
  obtain ⟨orig, horig, rfl⟩ := List.mem_map.mp h
  exact ⟨orig, horig, rfl, rfl, rfl, rfl⟩

/-- The insert step of `load` always returns normally, with the given event
prefix followed by exactly one event, which is either a completed insert or a
logged insert error. -/
lemma insertStep_events (oracle : String → Option PyError) (store : List Rec)
    (s : String) (rows : List Row) (sd : String) (stamp : Nat)
    (pre : List Event) :
    ∃ st2 ev, insertStep oracle store s rows sd stamp pre
        = .ok (st2, pre ++ [ev]) ∧
      ((∃ c, ev = .inserted s c) ∨ ev = .insertError s) := by
  unfold insertStep
  rcases h : insert_crypto_data store rows stamp (oracle s) with ⟨st2, res⟩
  cases res with
  | ok r =>
      cases hp : parsedDay sd with
      | none => exact ⟨st2, .insertError s, rfl, Or.inr rfl⟩
      | some d => exact ⟨st2, .inserted s r.inserted_count, rfl,
          Or.inl ⟨r.inserted_count, rfl⟩⟩
  | error e => exact ⟨st2, .insertError s, rfl, Or.inr rfl⟩

end RecoveryLemmas

/-- C3.  Recovery ordering in `BinanceAPILoad.load` for a symbol with an
empty batch (and a truthy `start_date`): tier-1 recovery runs first (the
event trace starts with the tier-1 attempt); when tier-1 yields data the
symbol goes straight to the insert step and the tier-2 snapshot read never
happens; when tier-1 is empty tier-2 is attempted; and when both tiers yield
nothing the symbol is skipped with an error logged, the store is untouched
for it, and `load` continues with the remaining symbols instead of raising. -/
theorem c3_recovery_ordering (backup : String → Option (List Rec))
    (oracle : String → Option PyError) (sd : String) (stamp recStamp : Nat)
    (store : List Rec) (s : String) (rest : List (String × List Row))
    (hsd : sd ≠ "") :
    (∀ l, recover_last_day_data store s sd recStamp = .ok l → l ≠ [] →
      loadSymbol backup oracle sd stamp recStamp store s []
          = insertStep oracle store s (l.map Rec.strip) sd stamp
              [.recoveryStart s] ∧
      ∀ res evs,
        loadSymbol backup oracle sd stamp recStamp store s [] = .ok (res, evs) →
        Event.tier2Start s ∉ evs ∧ evs.head? = some (.recoveryStart s)) ∧
    (recover_last_day_data store s sd recStamp = .ok [] →
      ∀ res evs,
        loadSymbol backup oracle sd stamp recStamp store s [] = .ok (res, evs) →
        Event.tier2Start s ∈ evs ∧ evs.head? = some (.recoveryStart s)) ∧
    (recover_last_day_data store s sd recStamp = .ok [] →
     recover_day_data_from_backup backup s sd recStamp = .ok [] →
      loadSymbol backup oracle sd stamp recStamp store s []
          = .ok (store, [.recoveryStart s, .tier2Start s, .recoveryFailed s]) ∧
      load backup oracle sd stamp recStamp ((s, []) :: rest) store
          = (load backup oracle sd stamp recStamp rest store).map
              (fun p => (p.1,
                [.recoveryStart s, .tier2Start s, .recoveryFailed s] ++ p.2))) := by
  have hcond : (([] : List Row).isEmpty ∧ sd ≠ "") := ⟨rfl, hsd⟩
  refine ⟨?_, ?_, ?_⟩
  · intro l ht1 hl
    have hload : loadSymbol backup oracle sd stamp recStamp store s []
        = insertStep oracle store s (l.map Rec.strip) sd stamp
            [.recoveryStart s] := by
      unfold loadSymbol
      rw [if_pos hcond, ht1]
      simp only [bind, Except.bind]
      rw [if_neg (by simpa [List.isEmpty_iff] using hl)]
    refine ⟨hload, ?_⟩
    intro res evs hok
    rw [hload] at hok
    obtain ⟨st2, ev, heq, hev⟩ := insertStep_events oracle store s
      (l.map Rec.strip) sd stamp [.recoveryStart s]
    rw [heq] at hok
    simp only [Except.ok.injEq, Prod.mk.injEq] at hok
    obtain ⟨h5, h6⟩ := hok
    subst h6
    constructor
    · rcases hev with ⟨c, rfl⟩ | rfl <;> simp
    · simp
  · intro ht1 res evs hok
    unfold loadSymbol at hok
    rw [if_pos hcond, ht1] at hok
    simp only [bind, Except.bind, List.isEmpty_nil, if_true] at hok
    cases ht2 : recover_day_data_from_backup backup s sd recStamp with
    | error e =>
        rw [ht2] at hok
        simp [bind, Except.bind] at hok
    | ok l2 =>
        rw [ht2] at hok
        simp only [bind, Except.bind] at hok
        by_cases hl2 : l2.isEmpty
        · rw [if_pos hl2] at hok
          simp only [Except.ok.injEq, Prod.mk.injEq] at hok
          obtain ⟨h5, h6⟩ := hok
          subst h6
          constructor <;> simp
        · rw [if_neg hl2] at hok
          obtain ⟨st2, ev, heq, hev⟩ := insertStep_events oracle store s
            (l2.map Rec.strip) sd stamp [.recoveryStart s, .tier2Start s]
          rw [heq] at hok
          simp only [Except.ok.injEq, Prod.mk.injEq] at hok
          obtain ⟨h5, h6⟩ := hok
          subst h6
          constructor <;> simp
  · intro ht1 ht2
    have hload : loadSymbol backup oracle sd stamp recStamp store s []
        = .ok (store, [.recoveryStart s, .tier2Start s, .recoveryFailed s]) := by
      unfold loadSymbol
      rw [if_pos hcond, ht1]
      simp only [bind, Except.bind, List.isEmpty_nil, if_true]
      rw [ht2]
      simp [bind, Except.bind]
    refine ⟨hload, ?_⟩
    simp only [load]
    rw [hload]
    simp only [bind, Except.bind]
    cases hrest : load backup oracle sd stamp recStamp rest store with
    | error e => simp [hrest, Except.map, bind, Except.bind]
    | ok p => simp [hrest, Except.map, bind, Except.bind]

/-- Witness for C3: a store holding one document for symbol `"B"` (tier-1
succeeds), and an empty store with no backup file (both tiers empty). -/
theorem c3_witness :
    (loadSymbol (fun _ => none) (fun _ => none) "20250624" 2 3
        [⟨"B", ⟨100, 5, some 0⟩, 7, 1⟩] "B" []
      = insertStep (fun _ => none) [⟨"B", ⟨100, 5, some 0⟩, 7, 1⟩] "B"
          ([(⟨"B", ⟨20263, 5, some 0⟩, 7, 3⟩ : Rec)].map Rec.strip)
          "20250624" 2 [.recoveryStart "B"]) ∧
    (loadSymbol (fun _ => none) (fun _ => none) "20250624" 2 3 [] "B" []
      = .ok ([], [.recoveryStart "B", .tier2Start "B", .recoveryFailed "B"])) ∧
    (load (fun _ => none) (fun _ => none) "20250624" 2 3 [("B", [])] []
      = (load (fun _ => none) (fun _ => none) "20250624" 2 3 [] []).map
          (fun p => (p.1,
            [.recoveryStart "B", .tier2Start "B", .recoveryFailed "B"] ++ p.2))) := by
  have h1 := (c3_recovery_ordering (fun _ => none) (fun _ => none) "20250624"
    2 3 [⟨"B", ⟨100, 5, some 0⟩, 7, 1⟩] "B" [] (by decide)).1
    [⟨"B", ⟨20263, 5, some 0⟩, 7, 3⟩] (by decide) (by decide)
  have h3 := (c3_recovery_ordering (fun _ => none) (fun _ => none) "20250624"
    2 3 [] "B" [] (by decide)).2.2 (by decide) (by decide)
  exact ⟨h1.1, h3.1, h3.2⟩

/-- C4.  Date-rewrite correctness of both recovery tiers: every recovered
document's rewritten timestamp has its calendar day equal to the day parsed
from the `"YYYYMMDD"` `start_date`, while its time of day and timezone are
those of the original stored (resp. backup-file) document. -/
theorem c4_date_rewrite (store : List Rec)
    (backup : String → Option (List Rec)) (symbol start_date : String)
    (recStamp : Nat) (newDay : Int)
    (hp : parsedDay start_date = some newDay) :
    (∀ out, recover_last_day_data store symbol start_date recStamp = .ok out →
      ∀ rec ∈ out, ∃ orig ∈ store, rec.symbol = orig.symbol ∧
        rec.ts.day = newDay ∧ rec.ts.tod = orig.ts.tod ∧
        rec.ts.tz = orig.ts.tz) ∧
    (∀ out,
      recover_day_data_from_backup backup symbol start_date recStamp = .ok out →
      ∀ rec ∈ out, ∃ docs, backup symbol = some docs ∧ ∃ orig ∈ docs,
        rec.symbol = orig.symbol ∧ rec.ts.day = newDay ∧
        rec.ts.tod = orig.ts.tod ∧ rec.ts.tz = orig.ts.tz) := by
  constructor
  · intro out hout rec hrec
    cases hm : findMostRecent store symbol with
    | none =>
        simp only [recover_last_day_data, hm, Except.ok.injEq] at hout
        subst hout
        exact absurd hrec (List.not_mem_nil rec)
    | some doc =>
        cases hf : store.filter
            (fun r => r.symbol == symbol && inUTCDayWindow doc.ts.day r.ts) with
        | nil =>
            simp only [recover_last_day_data, hm, hf, Except.ok.injEq] at hout
            subst hout
            exact absurd hrec (List.not_mem_nil rec)
        | cons x xs =>
            simp only [recover_last_day_data, hm, hf, hp,
              Except.ok.injEq] at hout
            subst hout
            obtain ⟨orig, horig, h1, h2, h3, h4⟩ := mem_rewrite hrec
            refine ⟨orig, ?_, h1, h2, h3, h4⟩
            have hin : orig ∈ store.filter
                (fun r => r.symbol == symbol &&
                  inUTCDayWindow doc.ts.day r.ts) := by
              rw [hf]; exact horig
            exact List.mem_of_mem_filter hin
  · intro out hout rec hrec
    cases hb : backup symbol with
    | none =>
        simp only [recover_day_data_from_backup, hb, Except.ok.injEq] at hout
        subst hout
        exact absurd hrec (List.not_mem_nil rec)
    | some docs =>
        cases docs with
        | nil =>
            simp only [recover_day_data_from_backup, hb,
              Except.ok.injEq] at hout
            subst hout
            exact absurd hrec (List.not_mem_nil rec)
        | cons x xs =>
            simp only [recover_day_data_from_backup, hb, hp,
              Except.ok.injEq] at hout
            subst hout
            obtain ⟨orig, horig, h1, h2, h3, h4⟩ := mem_rewrite hrec
            exact ⟨x :: xs, rfl, orig, horig, h1, h2, h3, h4⟩

/-- Witness for C4 at `start_date = "20250624"` (epoch day 20263), a store
with one document at time of day 5 µs after a midnight in timezone offset 0,
and a backup file with one document. -/
theorem c4_witness :
    (∃ orig ∈ [(⟨"B", ⟨100, 5, some 0⟩, 7, 1⟩ : Rec)],
      (⟨"B", ⟨20263, 5, some 0⟩, 7, 3⟩ : Rec).symbol = orig.symbol ∧
      (⟨"B", ⟨20263, 5, some 0⟩, 7, 3⟩ : Rec).ts.day = 20263 ∧
      (⟨"B", ⟨20263, 5, some 0⟩, 7, 3⟩ : Rec).ts.tod = orig.ts.tod ∧
      (⟨"B", ⟨20263, 5, some 0⟩, 7, 3⟩ : Rec).ts.tz = orig.ts.tz) ∧
    (∃ docs, (fun (_ : String) =>
        some [(⟨"X", ⟨200, 11, none⟩, 8, 1⟩ : Rec)]) "X" = some docs ∧
      ∃ orig ∈ docs,
        (⟨"X", ⟨20263, 11, none⟩, 8, 3⟩ : Rec).symbol = orig.symbol ∧
        (⟨"X", ⟨20263, 11, none⟩, 8, 3⟩ : Rec).ts.day = 20263 ∧
        (⟨"X", ⟨20263, 11, none⟩, 8, 3⟩ : Rec).ts.tod = orig.ts.tod ∧
        (⟨"X", ⟨20263, 11, none⟩, 8, 3⟩ : Rec).ts.tz = orig.ts.tz) := by
  constructor
  · exact (c4_date_rewrite [⟨"B", ⟨100, 5, some 0⟩, 7, 1⟩] (fun _ => none)
      "B" "20250624" 3 20263 (by decide)).1
      [⟨"B", ⟨20263, 5, some 0⟩, 7, 3⟩] (by decide)
      ⟨"B", ⟨20263, 5, some 0⟩, 7, 3⟩ (by decide)
  · exact (c4_date_rewrite []
      (fun _ => some [(⟨"X", ⟨200, 11, none⟩, 8, 1⟩ : Rec)])
      "X" "20250624" 3 20263 (by decide)).2
      [⟨"X", ⟨20263, 11, none⟩, 8, 3⟩] (by decide)
      ⟨"X", ⟨20263, 11, none⟩, 8, 3⟩ (by decide)

section WindowLemmas

@[simp] lemma toUTC_tz (t : PyDateTime) : (toUTC t).tz = some 0 := by
  unfold toUTC
  cases t.tz <;> rfl

lemma wf_toUTC {t : PyDateTime} (h : WfTS t) : WfTS (toUTC t) := by
  unfold toUTC
  cases t.tz with
  | none => exact h
  | some off =>
      constructor
      · exact Int.emod_nonneg _ (by norm_num [usPerDay])
      · exact Int.emod_lt_of_pos _ (by norm_num [usPerDay])

/-- A UTC-normalised timestamp falls in the deletion window of a
UTC-normalised date exactly when the two share a calendar day. -/
lemma inDeleteWindow_toUTC (a b : PyDateTime) (hwb : WfTS (toUTC b)) :
    inDeleteWindow (toUTC a) (toUTC b) = true ↔
      (toUTC b).day = (toUTC a).day := by
  obtain ⟨h1, h2⟩ := hwb
  have hta : (toUTC a).tz = some 0 := toUTC_tz a
  have htb : (toUTC b).tz = some 0 := toUTC_tz b
  unfold inDeleteWindow startOfDay instant
  rw [hta, htb]
  simp only [Option.getD_some, Bool.and_eq_true, decide_eq_true_eq]
  simp only [usPerDay] at h1 h2 ⊢
  constructor
  · rintro ⟨ha, hb⟩
    omega
  · rintro h
    rw [h]
    omega

/-- The records stamped from a batch of rows that all share the first row's
symbol and (normalised) calendar day are all removed by the deletion window
of the first row. -/
lemma filter_stamped_eq_nil (r0 : Row) (rest0 : List Row) (stamp : Nat)
    (hsym : ∀ r ∈ r0 :: rest0, r.symbol = r0.symbol)
    (hday : ∀ r ∈ r0 :: rest0, (toUTC r.ts).day = (toUTC r0.ts).day)
    (hwf : ∀ r ∈ r0 :: rest0, WfTS r.ts) :
    List.filter
        (fun r => !(r.symbol == r0.symbol && inDeleteWindow (toUTC r0.ts) r.ts))
        (((r0 :: rest0).map (fun r => { r with ts := toUTC r.ts })).map
          (stampRow stamp)) = [] := by
  rw [List.filter_eq_nil_iff]
  intro a ha
  simp only [List.map_map, List.mem_map, Function.comp] at ha
  obtain ⟨r, hr, rfl⟩ := ha
  simp only [stampRow, Bool.not_eq_true', Bool.not_eq_false]
  have h1 : r.symbol = r0.symbol := hsym r hr
  have h2 : inDeleteWindow (toUTC r0.ts) (toUTC r.ts) = true :=
    (inDeleteWindow_toUTC r0.ts r.ts (wf_toUTC (hwf r hr))).mpr (hday r hr)
  simp [h1, h2]

@[simp] lemma strip_stampRow (stamp : Nat) (r : Row) :
    (stampRow stamp r).strip = r := rfl

lemma filter_idem (p : Rec → Bool) (l : List Rec) :
    (l.filter p).filter p = l.filter p := by
  rw [List.filter_filter]
  exact List.filter_congr (fun a _ => by cases p a <;> simp)

end WindowLemmas

section IdempotenceLemmas

/-- Running the insert step twice on a batch whose rows all share the first
row's symbol and (UTC-normalised) calendar day leaves the same records as
running it once, up to the re-stamped `date_load_iso_utc` field: the second
call's delete step removes exactly the records the first call inserted. -/
lemma insert_crypto_data_twice (store : List Rec) (r0 : Row)
    (rest0 : List Row) (stamp1 stamp2 : Nat)
    (hsym : ∀ r ∈ r0 :: rest0, r.symbol = r0.symbol)
    (hday : ∀ r ∈ r0 :: rest0, (toUTC r.ts).day = (toUTC r0.ts).day)
    (hwf : ∀ r ∈ r0 :: rest0, WfTS r.ts) :
    ((insert_crypto_data (insert_crypto_data store (r0 :: rest0) stamp1 none).1
        (r0 :: rest0) stamp2 none).1).map Rec.strip
      = ((insert_crypto_data store (r0 :: rest0) stamp1 none).1).map
          Rec.strip := by
  simp only [insert_crypto_data, delete_existing_data]
  rw [List.filter_append, filter_idem,
    filter_stamped_eq_nil r0 rest0 stamp1 hsym hday hwf, List.append_nil,
    List.map_append, List.map_append]
  congr 1
  simp [List.map_map, Function.comp]

/-- A one-symbol `load` call on a non-empty batch (with a well-formed
`start_date` and no store failure) reduces to the insert step and reports one
inserted event. -/
lemma load_single_nonempty (backup : String → Option (List Rec))
    (s sd : String) (stamp recStamp : Nat) (store : List Rec) (r0 : Row)
    (rest0 : List Row) (n : Int) (hp : parsedDay sd = some n) :
    load backup (fun _ => none) sd stamp recStamp [(s, r0 :: rest0)] store
      = .ok ((insert_crypto_data store (r0 :: rest0) stamp none).1,
             [.inserted s (rest0.length + 1)]) := by
  simp [load, loadSymbol, insertStep, insert_crypto_data, hp, bind,
    Except.bind]

end IdempotenceLemmas

/-- C1, counterexample.  The insert step derives its deletion window from the
batch's FIRST row, not from `target_date`, so a batch for one symbol whose
rows span two UTC days is not loaded idempotently: starting from an empty
store, the first `load` stores both rows; the second `load` deletes only the
first day's records before re-inserting, leaving the second day's record
twice.  The stores after one and after two calls differ as multisets even
ignoring the `date_load_iso_utc` stamp. -/
theorem c1_counterexample :
    load (fun _ => none) (fun _ => none) "20250624" 1 9
        [("B", [⟨"B", ⟨0, 0, some 0⟩, 1⟩, ⟨"B", ⟨1, 0, some 0⟩, 2⟩])] []
      = .ok ([⟨"B", ⟨0, 0, some 0⟩, 1, 1⟩, ⟨"B", ⟨1, 0, some 0⟩, 2, 1⟩],
             [.inserted "B" 2]) ∧
    load (fun _ => none) (fun _ => none) "20250624" 2 9
        [("B", [⟨"B", ⟨0, 0, some 0⟩, 1⟩, ⟨"B", ⟨1, 0, some 0⟩, 2⟩])]
        [⟨"B", ⟨0, 0, some 0⟩, 1, 1⟩, ⟨"B", ⟨1, 0, some 0⟩, 2, 1⟩]
      = .ok ([⟨"B", ⟨1, 0, some 0⟩, 2, 1⟩, ⟨"B", ⟨0, 0, some 0⟩, 1, 2⟩,
              ⟨"B", ⟨1, 0, some 0⟩, 2, 2⟩],
             [.inserted "B" 2]) ∧
    ¬ (([⟨"B", ⟨1, 0, some 0⟩, 2, 1⟩, ⟨"B", ⟨0, 0, some 0⟩, 1, 2⟩,
         ⟨"B", ⟨1, 0, some 0⟩, 2, 2⟩] : List Rec).map Rec.strip).Perm
        (([⟨"B", ⟨0, 0, some 0⟩, 1, 1⟩,
           ⟨"B", ⟨1, 0, some 0⟩, 2, 1⟩] : List Rec).map Rec.strip) := by
  exact ⟨by decide, by decide, by decide⟩

/-- C1, amended.  Calling `load({s: b}, target_date)` twice with the same
non-empty batch leaves exactly the same set of records as calling it once
(ignoring the re-stamped `date_load_iso_utc` field), PROVIDED the batch's
rows all carry the symbol `s` and one common UTC calendar day: the second
call's delete step — whose window is derived from the batch's first row —
then removes precisely the first call's records before re-inserting. -/
theorem c1_load_idempotent_single_day
    (backup : String → Option (List Rec)) (store : List Rec) (s sd : String)
    (r0 : Row) (rest0 : List Row) (stamp1 stamp2 recStamp : Nat) (n : Int)
    (hp : parsedDay sd = some n)
    (hsym : ∀ r ∈ r0 :: rest0, r.symbol = s)
    (hday : ∀ r ∈ r0 :: rest0, (toUTC r.ts).day = (toUTC r0.ts).day)
    (hwf : ∀ r ∈ r0 :: rest0, WfTS r.ts) :
    ∃ st1 st2,
      load backup (fun _ => none) sd stamp1 recStamp [(s, r0 :: rest0)] store
        = .ok (st1, [.inserted s (rest0.length + 1)]) ∧
      load backup (fun _ => none) sd stamp2 recStamp [(s, r0 :: rest0)] st1
        = .ok (st2, [.inserted s (rest0.length + 1)]) ∧
      st2.map Rec.strip = st1.map Rec.strip := by
  refine ⟨_, _,
    load_single_nonempty backup s sd stamp1 recStamp store r0 rest0 n hp,
    load_single_nonempty backup s sd stamp2 recStamp _ r0 rest0 n hp, ?_⟩
  exact insert_crypto_data_twice store r0 rest0 stamp1 stamp2
    (fun r hr => (hsym r hr).trans (hsym r0 (by simp)).symm) hday hwf

/-- Witness for C1 (amended) at a two-row single-day batch for symbol `"B"`
over a store holding an unrelated record. -/
theorem c1_witness :
    ∃ st1 st2,
      load (fun _ => none) (fun _ => none) "20250624" 4 9
          [("B", [⟨"B", ⟨0, 5, some 0⟩, 1⟩, ⟨"B", ⟨0, 7, some 0⟩, 2⟩])]
          [⟨"C", ⟨0, 1, some 0⟩, 3, 0⟩]
        = .ok (st1, [.inserted "B" 2]) ∧
      load (fun _ => none) (fun _ => none) "20250624" 5 9
          [("B", [⟨"B", ⟨0, 5, some 0⟩, 1⟩, ⟨"B", ⟨0, 7, some 0⟩, 2⟩])] st1
        = .ok (st2, [.inserted "B" 2]) ∧
      st2.map Rec.strip = st1.map Rec.strip := by
  exact c1_load_idempotent_single_day (fun _ => none)
    [⟨"C", ⟨0, 1, some 0⟩, 3, 0⟩] "B" "20250624" ⟨"B", ⟨0, 5, some 0⟩, 1⟩
    [⟨"B", ⟨0, 7, some 0⟩, 2⟩] 4 5 9 20263 (by decide) (by decide)
    (by decide) (by decide)

/-- C10.  The delete-then-insert step of `insert_crypto_data` (identically
`insert_market_data`) derives its symbol and 24-hour UTC deletion window from
the batch's first row — `target_date` is not even a parameter of the insert
step — and a stored record sharing a later row's key but lying outside the
first row's day window survives the delete, so that row's insertion produces
a second record at the same `(symbol, timestamp)` key, violating the
uniqueness invariant; hence the invariant is preserved only when all rows of
a batch share one symbol and one UTC calendar day. -/
theorem c10_delete_window_first_row (store : List Rec) (r0 : Row)
    (rest : List Row) (stamp : Nat) :
    (insert_crypto_data store (r0 :: rest) stamp none).1
      = store.filter
          (fun r =>
            !(r.symbol == r0.symbol && inDeleteWindow (toUTC r0.ts) r.ts))
        ++ ((r0 :: rest).map (fun r => { r with ts := toUTC r.ts })).map
            (stampRow stamp) ∧
    (∀ (rr : Row) (rec : Rec), rr ∈ r0 :: rest → rec ∈ store →
      WfTS rr.ts → (toUTC rr.ts).day ≠ (toUTC r0.ts).day →
      rec.symbol = rr.symbol → rec.ts = toUTC rr.ts →
      2 ≤ (((insert_crypto_data store (r0 :: rest) stamp none).1).filter
            (fun x => x.symbol == rr.symbol && x.ts == toUTC rr.ts)).length) := by
  constructor
  · rfl
  · intro rr rec hrr hrec hw hneq hsy hts
    have hres : (insert_crypto_data store (r0 :: rest) stamp none).1
        = store.filter
            (fun r =>
              !(r.symbol == r0.symbol && inDeleteWindow (toUTC r0.ts) r.ts))
          ++ ((r0 :: rest).map (fun r => { r with ts := toUTC r.ts })).map
              (stampRow stamp) := rfl
    rw [hres, List.filter_append, List.length_append]
    have hwin : inDeleteWindow (toUTC r0.ts) (toUTC rr.ts) = false := by
      cases h2 : inDeleteWindow (toUTC r0.ts) (toUTC rr.ts) with
      | false => rfl
      | true =>
          exact absurd ((inDeleteWindow_toUTC r0.ts rr.ts (wf_toUTC hw)).mp h2)
            hneq
    have hkeep : rec ∈ store.filter
        (fun r =>
          !(r.symbol == r0.symbol && inDeleteWindow (toUTC r0.ts) r.ts)) :=
      List.mem_filter.mpr ⟨hrec, by simp [hts, hwin]⟩
    have h1 : 0 < ((store.filter
        (fun r =>
          !(r.symbol == r0.symbol && inDeleteWindow (toUTC r0.ts) r.ts))).filter
        (fun x => x.symbol == rr.symbol && x.ts == toUTC rr.ts)).length :=
      List.length_pos_of_mem
        (List.mem_filter.mpr ⟨hkeep, by simp [hsy, hts]⟩)
    have hmem2 : stampRow stamp { rr with ts := toUTC rr.ts }
        ∈ ((r0 :: rest).map (fun r => { r with ts := toUTC r.ts })).map
            (stampRow stamp) :=
      List.mem_map_of_mem (stampRow stamp)
        (List.mem_map_of_mem (fun r => { r with ts := toUTC r.ts }) hrr)
    have h2 : 0 < ((((r0 :: rest).map
        (fun r => { r with ts := toUTC r.ts })).map (stampRow stamp)).filter
        (fun x => x.symbol == rr.symbol && x.ts == toUTC rr.ts)).length :=
      List.length_pos_of_mem
        (List.mem_filter.mpr ⟨hmem2, by simp [stampRow]⟩)
    omega

/-- Witness for C10: a batch whose second row lies on a different UTC day
from its first row, over a store already holding that second row's record —
after the insert step the store holds two records at that key. -/
theorem c10_witness :
    2 ≤ (((insert_crypto_data [⟨"B", ⟨1, 0, some 0⟩, 2, 0⟩]
        [⟨"B", ⟨0, 0, some 0⟩, 1⟩, ⟨"B", ⟨1, 0, some 0⟩, 2⟩] 7 none).1).filter
          (fun x => x.symbol == (⟨"B", ⟨1, 0, some 0⟩, 2⟩ : Row).symbol &&
            x.ts == toUTC (⟨"B", ⟨1, 0, some 0⟩, 2⟩ : Row).ts)).length :=
  (c10_delete_window_first_row [⟨"B", ⟨1, 0, some 0⟩, 2, 0⟩]
      ⟨"B", ⟨0, 0, some 0⟩, 1⟩ [⟨"B", ⟨1, 0, some 0⟩, 2⟩] 7).2
    ⟨"B", ⟨1, 0, some 0⟩, 2⟩ ⟨"B", ⟨1, 0, some 0⟩, 2, 0⟩
    (by decide) (by decide) (by decide) (by decide) (by decide) (by decide)

/-- C6, counterexample.  A non-retryable operational failure raised by the
store's `insert_many` inside `insert_crypto_data` is NOT propagated to the
caller: the surrounding `try/except` catches it, logs, and returns the normal
result dictionary `{"inserted_count": 0}`, so there is an execution in which
such an error occurs and the insert path reports a normal result. -/
theorem c6_counterexample :
    (insert_crypto_data [] [⟨"B", ⟨0, 0, some 0⟩, 1⟩] 1
        (some (.operationFailure 7))).2 = .ok ⟨0⟩ ∧
    (insert_crypto_data [] [⟨"B", ⟨0, 0, some 0⟩, 1⟩] 1
        (some (.operationFailure 7))).1 = [] := by
  exact ⟨rfl, rfl⟩

/-- C6, amended.  The retry wrapper itself does treat non-retryable errors as
claimed — the operation is invoked exactly once and the error propagates with
no sleep and no retry — but the loader's per-symbol insert step
(`insert_crypto_data`) catches every exception, keeps whatever the delete
step already did, and reports the normal dictionary `{"inserted_count": 0}`
to its caller: the error never escapes the insert path. -/
theorem c6_nonretryable_handling (α : Type) (m : Nat) (delay backoff : ℚ)
    (store : List Rec) (df : List Row) (stamp : Nat) (e : PyError)
    (hm : 1 ≤ m) :
    (∀ (g : Nat → Except PyError α) (err : PyError),
      g 0 = .error err → err.isConnErr = false →
      retryRun g m delay backoff = (.error (.raised err), [.call 0])) ∧
    (insert_crypto_data store df stamp (some e)).2 = .ok ⟨0⟩ ∧
    (insert_crypto_data store df stamp (some e)).1
      = (match df with
         | [] => store
         | r0 :: _ => delete_existing_data store r0.symbol (toUTC r0.ts)) := by
  refine ⟨?_, rfl, rfl⟩
  intro g err hg he
  obtain ⟨m1, rfl⟩ : ∃ m1, m = m1 + 1 := ⟨m - 1, by omega⟩
  simp [retryRun, retryAux, hg, he]

/-- Witness for C6 at `max_attempts = 3` and a one-row batch whose
`insert_many` raises an operational failure. -/
theorem c6_witness :
    retryRun (fun _ => (.error (.operationFailure 7) : Except PyError Unit))
        3 1 2 = (.error (.raised (.operationFailure 7)), [.call 0]) ∧
    (insert_crypto_data [⟨"B", ⟨0, 3, some 0⟩, 5, 0⟩]
        [⟨"B", ⟨0, 0, some 0⟩, 1⟩] 1 (some (.operationFailure 7))).2
      = .ok ⟨0⟩ ∧
    (insert_crypto_data [⟨"B", ⟨0, 3, some 0⟩, 5, 0⟩]
        [⟨"B", ⟨0, 0, some 0⟩, 1⟩] 1 (some (.operationFailure 7))).1
      = (match [(⟨"B", ⟨0, 0, some 0⟩, 1⟩ : Row)] with
         | [] => [(⟨"B", ⟨0, 3, some 0⟩, 5, 0⟩ : Rec)]
         | r0 :: _ => delete_existing_data [⟨"B", ⟨0, 3, some 0⟩, 5, 0⟩]
             r0.symbol (toUTC r0.ts)) := by
  obtain ⟨h1, h2, h3⟩ := c6_nonretryable_handling Unit 3 1 2
    [⟨"B", ⟨0, 3, some 0⟩, 5, 0⟩] [⟨"B", ⟨0, 0, some 0⟩, 1⟩] 1
    (.operationFailure 7) (by norm_num)
  exact ⟨h1 (fun _ => .error (.operationFailure 7)) (.operationFailure 7)
    rfl rfl, h2, h3⟩

section EstablishLemmas

/-- The establishment loop under an environment where every connection
attempt fails: it terminates (given enough fuel, since every failed round
advances the clock by at least the two-second minimum wait) by re-raising the
error of the last attempt it made. -/
lemma establishLoop_allfail (outcome : Nat → Option PyError)
    (dur : Nat → Int) (maxRetry : Int) (e : Nat → PyError)
    (hout : ∀ k, outcome k = some (e k)) (hdur : ∀ k, 0 ≤ dur k) :
    ∀ (fuel : Nat) (elapsed : Int) (attempt : Nat) (lastErr : Option PyError),
      elapsed < maxRetry → maxRetry - elapsed < 2 * fuel →
      ∃ j, establishLoop outcome dur maxRetry fuel elapsed attempt lastErr
        = .failedOut (some (e j)) (j + 1) := by
  intro fuel
  induction fuel with
  | zero =>
      intro elapsed attempt lastErr h1 h2
      exfalso
      omega
  | succ fuel ih =>
      intro elapsed attempt lastErr h1 h2
      by_cases hc :
          elapsed + dur attempt + min 30 (2 ^ (attempt + 1)) < maxRetry
      · have hwait : (2 : Int) ≤ min 30 (2 ^ (attempt + 1)) := by
          refine le_min (by norm_num) ?_
          calc (2 : Int) = 2 ^ 1 := by norm_num
          _ ≤ 2 ^ (attempt + 1) := by
              exact pow_le_pow_right₀ (by norm_num) (by omega)
        obtain ⟨j, hj⟩ := ih (elapsed + dur attempt + min 30 (2 ^ (attempt + 1)))
          (attempt + 1) (some (e attempt)) hc
          (by have hd := hdur attempt; omega)
        refine ⟨j, ?_⟩
        simp only [establishLoop, if_pos h1, hout attempt, hc, if_true]
        exact hj
      · refine ⟨attempt, ?_⟩
        simp only [establishLoop, if_pos h1, hout attempt, hc, if_false]

end EstablishLemmas

/-- C5.  `MongoDBConnectionFactory.create_client`: (a) while the cached
client is younger than the TTL and answers the ping, every call returns that
same client instance and leaves the factory state — in particular the fresh-id
counter — untouched, so two successive calls return the same instance and
establish no new connection; (b) when the ping of the cached client fails, or
its TTL has elapsed, the old client is closed and discarded and the call
returns a newly created client (the fresh id, distinct from every client ever
handed out before) whose creation timestamp is freshly recorded; (c) when no
new client can be established within the `max_retry_time` budget, the call
raises a connection failure carrying the last underlying error. -/
theorem c5_handle_caching (ping : Nat → Bool)
    (outcome : Nat → Option PyError) (dur : Nat → Int) (maxRetry now : Int)
    (fuel : Nat) (st : FactoryState) :
    (∀ c, st.cachedClient = some c →
      now - st.clientCreationTime < clientLifetime → ping c = true →
      create_client ping outcome dur maxRetry now fuel st = (.ok c, st)) ∧
    (∀ c fuel1, st.cachedClient = some c →
      (ping c = false ∨ clientLifetime ≤ now - st.clientCreationTime) →
      outcome 0 = none → 0 < maxRetry →
      create_client ping outcome dur maxRetry now (fuel1 + 1) st
        = (.ok st.nextId,
           { cachedClient := some st.nextId,
             clientCreationTime := now + (0 + dur 0),
             nextId := st.nextId + 1,
             closed := st.closed ++ [c] }) ∧
      (c < st.nextId → st.nextId ≠ c)) ∧
    (∀ (e : Nat → PyError), st.cachedClient = none →
      (∀ k, outcome k = some (e k)) → (∀ k, 0 ≤ dur k) →
      0 < maxRetry → maxRetry < 2 * fuel →
      ∃ j, create_client ping outcome dur maxRetry now fuel st
        = (.connFailure (some (e j)), st)) := by
  refine ⟨?_, ?_, ?_⟩
  · intro c hc hfresh hping
    simp only [create_client, hc]
    rw [if_pos ⟨hfresh, hping⟩]
  · intro c fuel1 hc hstale hout0 hpos
    have hcond : ¬ (now - st.clientCreationTime < clientLifetime ∧
        ping c = true) := by
      rcases hstale with h | h
      · rintro ⟨_, hp⟩; rw [h] at hp; cases hp
      · rintro ⟨hf, _⟩; omega
    constructor
    · simp only [create_client, hc]
      rw [if_neg hcond]
      simp only [createClientLocked, hc]
      rw [if_neg hcond]
      simp only [establishLoop, if_pos hpos, hout0]
    · intro hlt
      omega
  · intro e hc hout hdur hpos hfuel
    obtain ⟨j, hj⟩ := establishLoop_allfail outcome dur maxRetry e hout hdur
      fuel 0 0 none hpos (by omega)
    refine ⟨j, ?_⟩
    simp only [create_client, hc, createClientLocked, hj]

/-- Witness for C5: a healthy fresh cached client is reused twice; an
unhealthy one is closed and replaced by the fresh client id; an environment
whose every establishment attempt fails yields a terminal connection
failure. -/
theorem c5_witness :
    create_client (fun _ => true) (fun _ => none) (fun _ => 1) 300 10 50
        ⟨some 0, 0, 1, []⟩ = (.ok 0, ⟨some 0, 0, 1, []⟩) ∧
    create_client (fun _ => false) (fun _ => none) (fun _ => 1) 300 10 50
        ⟨some 0, 0, 1, []⟩
      = (.ok 1, ⟨some 1, 10 + (0 + 1), 2, [] ++ [0]⟩) ∧
    (∃ j, create_client (fun _ => true)
        (fun k => some (.connectionFailure k)) (fun _ => 1) 300 10 200
        ⟨none, 0, 1, []⟩
      = (.connFailure (some (.connectionFailure j)), ⟨none, 0, 1, []⟩)) := by
  obtain ⟨h1, h2, h3⟩ := c5_handle_caching (fun _ => true) (fun _ => none)
    (fun _ => 1) 300 10 50 ⟨some 0, 0, 1, []⟩
  obtain ⟨h4, h5, h6⟩ := c5_handle_caching (fun _ => false) (fun _ => none)
    (fun _ => 1) 300 10 50 ⟨some 0, 0, 1, []⟩
  obtain ⟨h7, h8, h9⟩ := c5_handle_caching (fun _ => true)
    (fun k => some (.connectionFailure k)) (fun _ => 1) 300 10 200
    ⟨none, 0, 1, []⟩
  refine ⟨h1 0 rfl (by norm_num [clientLifetime]) rfl, ?_, ?_⟩
  · exact (h5 0 49 rfl (Or.inl rfl) rfl (by norm_num)).1
  · exact h9 (fun k => .connectionFailure k) rfl (fun _ => rfl)
      (fun _ => by norm_num) (by norm_num) (by norm_num)

section ConcurrencyLemmas

@[simp] lemma thr_false (cfg : CConfig) : cfg.thr false = cfg.t0 := rfl

@[simp] lemma thr_true (cfg : CConfig) : cfg.thr true = cfg.t1 := rfl

@[simp] lemma setThr_false (cfg : CConfig) (t : Thread) :
    cfg.setThr false t = { cfg with t0 := t } := rfl

@[simp] lemma setThr_true (cfg : CConfig) (t : Thread) :
    cfg.setThr true t = { cfg with t1 := t } := rfl

/-- One step of either thread preserves the lock-ownership invariant. -/
lemma cstep_lockInv (ping : Bool → Nat → Bool) (now : Int) (cfg : CConfig)
    (tid : Bool) (h : LockInv cfg) : LockInv (cstep ping now cfg tid) := by
  obtain ⟨i0, i1⟩ := h
  cases tid
  · cases hpc : cfg.t0.pc <;>
      simp only [cstep, thr_false, setThr_false, hpc]
    case fastRead =>
        split <;> exact ⟨by simp [inCrit], fun h1 => i1 h1⟩
    case fastTest =>
        split <;> exact ⟨by simp [inCrit], fun h1 => i1 h1⟩
    case fastPing =>
        split
        · split <;> exact ⟨by simp [inCrit], fun h1 => i1 h1⟩
        · exact ⟨by simp [inCrit], fun h1 => i1 h1⟩
    case fastReturn => exact ⟨by simp [inCrit], fun h1 => i1 h1⟩
    case lockWait =>
        split
        · rename_i hl
          exact ⟨fun _ => rfl, fun h1 =>
            absurd ((i1 h1).symm.trans hl) (by simp)⟩
        · exact ⟨i0, i1⟩
    case recheck =>
        have hl : cfg.lock = some false := i0 (by simp [hpc, inCrit])
        have ht1 : inCrit cfg.t1.pc = false := by
          cases h2 : inCrit cfg.t1.pc
          · rfl
          · rw [i1 h2] at hl; cases hl
        split
        · split
          · exact ⟨by simp [inCrit], fun h1 => absurd h1 (by simp [ht1])⟩
          · exact ⟨fun _ => hl, fun h1 => absurd h1 (by simp [ht1])⟩
        · exact ⟨fun _ => hl, fun h1 => absurd h1 (by simp [ht1])⟩
    case closeOld =>
        have hl : cfg.lock = some false := i0 (by simp [hpc, inCrit])
        have ht1 : inCrit cfg.t1.pc = false := by
          cases h2 : inCrit cfg.t1.pc
          · rfl
          · rw [i1 h2] at hl; cases hl
        split <;> exact ⟨fun _ => hl, fun h1 => absurd h1 (by simp [ht1])⟩
    case clearCached =>
        have hl : cfg.lock = some false := i0 (by simp [hpc, inCrit])
        have ht1 : inCrit cfg.t1.pc = false := by
          cases h2 : inCrit cfg.t1.pc
          · rfl
          · rw [i1 h2] at hl; cases hl
        exact ⟨fun _ => hl, fun h1 => absurd h1 (by simp [ht1])⟩
    case establish =>
        have hl : cfg.lock = some false := i0 (by simp [hpc, inCrit])
        have ht1 : inCrit cfg.t1.pc = false := by
          cases h2 : inCrit cfg.t1.pc
          · rfl
          · rw [i1 h2] at hl; cases hl
        exact ⟨fun _ => hl, fun h1 => absurd h1 (by simp [ht1])⟩
    case lockReturn =>
        have hl : cfg.lock = some false := i0 (by simp [hpc, inCrit])
        have ht1 : inCrit cfg.t1.pc = false := by
          cases h2 : inCrit cfg.t1.pc
          · rfl
          · rw [i1 h2] at hl; cases hl
        exact ⟨by simp [inCrit], fun h1 => absurd h1 (by simp [ht1])⟩
    case threadDone => exact ⟨i0, i1⟩
  · cases hpc : cfg.t1.pc <;>
      simp only [cstep, thr_true, setThr_true, hpc]
    case fastRead =>
        split <;> exact ⟨fun h0 => i0 h0, by simp [inCrit]⟩
    case fastTest =>
        split <;> exact ⟨fun h0 => i0 h0, by simp [inCrit]⟩
    case fastPing =>
        split
        · split <;> exact ⟨fun h0 => i0 h0, by simp [inCrit]⟩
        · exact ⟨fun h0 => i0 h0, by simp [inCrit]⟩
    case fastReturn => exact ⟨fun h0 => i0 h0, by simp [inCrit]⟩
    case lockWait =>
        split
        · rename_i hl
          exact ⟨fun h0 => absurd ((i0 h0).symm.trans hl) (by simp),
            fun _ => rfl⟩
        · exact ⟨i0, i1⟩
    case recheck =>
        have hl : cfg.lock = some true := i1 (by simp [hpc, inCrit])
        have ht0 : inCrit cfg.t0.pc = false := by
          cases h2 : inCrit cfg.t0.pc
          · rfl
          · rw [i0 h2] at hl; cases hl
        split
        · split
          · exact ⟨fun h0 => absurd h0 (by simp [ht0]), by simp [inCrit]⟩
          · exact ⟨fun h0 => absurd h0 (by simp [ht0]), fun _ => hl⟩
        · exact ⟨fun h0 => absurd h0 (by simp [ht0]), fun _ => hl⟩
    case closeOld =>
        have hl : cfg.lock = some true := i1 (by simp [hpc, inCrit])
        have ht0 : inCrit cfg.t0.pc = false := by
          cases h2 : inCrit cfg.t0.pc
          · rfl
          · rw [i0 h2] at hl; cases hl
        split <;> exact ⟨fun h0 => absurd h0 (by simp [ht0]), fun _ => hl⟩
    case clearCached =>
        have hl : cfg.lock = some true := i1 (by simp [hpc, inCrit])
        have ht0 : inCrit cfg.t0.pc = false := by
          cases h2 : inCrit cfg.t0.pc
          · rfl
          · rw [i0 h2] at hl; cases hl
        exact ⟨fun h0 => absurd h0 (by simp [ht0]), fun _ => hl⟩
    case establish =>
        have hl : cfg.lock = some true := i1 (by simp [hpc, inCrit])
        have ht0 : inCrit cfg.t0.pc = false := by
          cases h2 : inCrit cfg.t0.pc
          · rfl
          · rw [i0 h2] at hl; cases hl
        exact ⟨fun h0 => absurd h0 (by simp [ht0]), fun _ => hl⟩
    case lockReturn =>
        have hl : cfg.lock = some true := i1 (by simp [hpc, inCrit])
        have ht0 : inCrit cfg.t0.pc = false := by
          cases h2 : inCrit cfg.t0.pc
          · rfl
          · rw [i0 h2] at hl; cases hl
        exact ⟨fun h0 => absurd h0 (by simp [ht0]), by simp [inCrit]⟩
    case threadDone => exact ⟨i0, i1⟩

instance (cfg : CConfig) : Decidable (LockInv cfg) := by
  unfold LockInv; infer_instance

/-- No-leaked-client invariant: every client id ever created (ids below the
fresh-id counter) is either the currently cached client or already closed —
so at most one created client is live at any time, and an execution never
produces two live cached clients.  The two auxiliary clauses record what
holds of a thread standing between `close()` and `_cached_client = None`
(the closed client is still the cached one) and of a thread about to
establish (the cache slot has been cleared). -/
def CacheInv (cfg : CConfig) : Prop :=
  (∀ i < cfg.nextId, cfg.cached = some i ∨ i ∈ cfg.closed) ∧
  (cfg.t0.pc = .clearCached → ∀ c, cfg.cached = some c → c ∈ cfg.closed) ∧
  (cfg.t1.pc = .clearCached → ∀ c, cfg.cached = some c → c ∈ cfg.closed) ∧
  (cfg.t0.pc = .establish → cfg.cached = none) ∧
  (cfg.t1.pc = .establish → cfg.cached = none)

instance (cfg : CConfig) : Decidable (CacheInv cfg) := by
  unfold CacheInv; infer_instance

/-- One step of either thread preserves the no-leaked-client invariant
(given lock ownership, which rules out two threads in the critical section
at once). -/
lemma cstep_cacheInv (ping : Bool → Nat → Bool) (now : Int) (cfg : CConfig)
    (tid : Bool) (hL : LockInv cfg) (h : CacheInv cfg) :
    CacheInv (cstep ping now cfg tid) := by
  obtain ⟨iL0, iL1⟩ := hL
  obtain ⟨h1, h2, h3, h4, h5⟩ := h
  cases tid
  · cases hpc : cfg.t0.pc <;>
      simp only [cstep, thr_false, setThr_false, hpc]
    case fastRead => split <;> exact ⟨h1, by simp, h3, by simp, h5⟩
    case fastTest => split <;> exact ⟨h1, by simp, h3, by simp, h5⟩
    case fastPing =>
        split
        · split <;> exact ⟨h1, by simp, h3, by simp, h5⟩
        · exact ⟨h1, by simp, h3, by simp, h5⟩
    case fastReturn => exact ⟨h1, by simp, h3, by simp, h5⟩
    case lockWait =>
        split
        · exact ⟨h1, by simp, h3, by simp, h5⟩
        · exact ⟨h1, h2, h3, h4, h5⟩
    case recheck =>
        split
        · split
          · exact ⟨h1, by simp, h3, by simp, h5⟩
          · exact ⟨h1, by simp, h3, by simp, h5⟩
        · exact ⟨h1, by simp, h3, by simp, h5⟩
    case closeOld =>
        split
        · rename_i c heq
          refine ⟨?_, ?_, ?_, by simp, ?_⟩
          · intro i hi
            exact (h1 i hi).imp (fun hh => hh)
              (fun hh => List.mem_append.mpr (Or.inl hh))
          · intro _ c2 hc2
            have hc2x : cfg.cached = some c2 := hc2
            rw [heq] at hc2x
            injection hc2x with hceq
            subst hceq
            exact List.mem_append.mpr (Or.inr (by simp))
          · intro ht1 c2 hc2
            exact List.mem_append.mpr (Or.inl (h3 ht1 c2 hc2))
          · intro ht1
            exact h5 ht1
        · rename_i heq
          exact ⟨h1, by simp, h3, fun _ => heq, h5⟩
    case clearCached =>
        refine ⟨?_, by simp, ?_, fun _ => rfl, fun _ => rfl⟩
        · intro i hi
          exact Or.inr ((h1 i hi).elim (fun hc => h2 hpc i hc) (fun hc => hc))
        · intro ht1 c hc
          exact Option.noConfusion hc
    case establish =>
        have hnone : cfg.cached = none := h4 hpc
        have hl0 : cfg.lock = some false := iL0 (by simp [hpc, inCrit])
        have ht1c : inCrit cfg.t1.pc = false := by
          cases hcc : inCrit cfg.t1.pc
          · rfl
          · rw [iL1 hcc] at hl0; cases hl0
        refine ⟨?_, by simp, ?_, by simp, ?_⟩
        · intro i hi
          have hi2 : i < cfg.nextId + 1 := hi
          by_cases hieq : i = cfg.nextId
          · exact Or.inl (by rw [hieq])
          · have hlt : i < cfg.nextId := by omega
            rcases h1 i hlt with hc | hc
            · rw [hnone] at hc
              exact Option.noConfusion hc
            · exact Or.inr hc
        · intro ht1
          exfalso
          have hx := ht1c
          rw [show cfg.t1.pc = PC.clearCached from ht1] at hx
          simp [inCrit] at hx
        · intro ht1
          exfalso
          have hx := ht1c
          rw [show cfg.t1.pc = PC.establish from ht1] at hx
          simp [inCrit] at hx
    case lockReturn => exact ⟨h1, by simp, h3, by simp, h5⟩
    case threadDone => exact ⟨h1, h2, h3, h4, h5⟩
  · cases hpc : cfg.t1.pc <;>
      simp only [cstep, thr_true, setThr_true, hpc]
    case fastRead => split <;> exact ⟨h1, h2, by simp, h4, by simp⟩
    case fastTest => split <;> exact ⟨h1, h2, by simp, h4, by simp⟩
    case fastPing =>
        split
        · split <;> exact ⟨h1, h2, by simp, h4, by simp⟩
        · exact ⟨h1, h2, by simp, h4, by simp⟩
    case fastReturn => exact ⟨h1, h2, by simp, h4, by simp⟩
    case lockWait =>
        split
        · exact ⟨h1, h2, by simp, h4, by simp⟩
        · exact ⟨h1, h2, h3, h4, h5⟩
    case recheck =>
        split
        · split
          · exact ⟨h1, h2, by simp, h4, by simp⟩
          · exact ⟨h1, h2, by simp, h4, by simp⟩
        · exact ⟨h1, h2, by simp, h4, by simp⟩
    case closeOld =>
        split
        · rename_i c heq
          refine ⟨?_, ?_, ?_, ?_, by simp⟩
          · intro i hi
            exact (h1 i hi).imp (fun hh => hh)
              (fun hh => List.mem_append.mpr (Or.inl hh))
          · intro ht0 c2 hc2
            exact List.mem_append.mpr (Or.inl (h2 ht0 c2 hc2))
          · intro _ c2 hc2
            have hc2x : cfg.cached = some c2 := hc2
            rw [heq] at hc2x
            injection hc2x with hceq
            subst hceq
            exact List.mem_append.mpr (Or.inr (by simp))
          · intro ht0
            exact h4 ht0
        · rename_i heq
          exact ⟨h1, h2, by simp, h4, fun _ => heq⟩
    case clearCached =>
        refine ⟨?_, ?_, by simp, fun _ => rfl, fun _ => rfl⟩
        · intro i hi
          exact Or.inr ((h1 i hi).elim (fun hc => h3 hpc i hc) (fun hc => hc))
        · intro ht0 c hc
          exact Option.noConfusion hc
    case establish =>
        have hnone : cfg.cached = none := h5 hpc
        have hl1 : cfg.lock = some true := iL1 (by simp [hpc, inCrit])
        have ht0c : inCrit cfg.t0.pc = false := by
          cases hcc : inCrit cfg.t0.pc
          · rfl
          · rw [iL0 hcc] at hl1; cases hl1
        refine ⟨?_, ?_, by simp, ?_, by simp⟩
        · intro i hi
          have hi2 : i < cfg.nextId + 1 := hi
          by_cases hieq : i = cfg.nextId
          · exact Or.inl (by rw [hieq])
          · have hlt : i < cfg.nextId := by omega
            rcases h1 i hlt with hc | hc
            · rw [hnone] at hc
              exact Option.noConfusion hc
            · exact Or.inr hc
        · intro ht0
          exfalso
          have hx := ht0c
          rw [show cfg.t0.pc = PC.clearCached from ht0] at hx
          simp [inCrit] at hx
        · intro ht0
          exfalso
          have hx := ht0c
          rw [show cfg.t0.pc = PC.establish from ht0] at hx
          simp [inCrit] at hx
    case lockReturn => exact ⟨h1, h2, by simp, h4, by simp⟩
    case threadDone => exact ⟨h1, h2, h3, h4, h5⟩

end ConcurrencyLemmas

/-- C9, counterexample.  An interleaving in which thread 0's `create_client`
returns a client that was closed by a concurrent call BEFORE the return
executes.  Thread 0 passes its lock-free fast path (its ping of cached
client 0 succeeds) and is preempted at its `return` statement; thread 1,
whose ping of client 0 fails, takes the locked slow path and executes
`_cached_client.close()` — at this point client 0 is closed but, the model
keeping `close()` and the subsequent `_cached_client = None` as two separate
atomic steps exactly as in the source, the shared attribute still references
it.  Thread 0's `return` then re-reads the attribute and hands the
already-closed client 0 to its caller while thread 1's overlapping call is
still inside the critical section.  The claim's "no execution returns a
client that was concurrently closed" is false. -/
theorem c9_counterexample :
    (let mid := crun (fun tid _ => !tid) 0
        ⟨Thread.init, Thread.init, some 0, 0, [], none, 1⟩
        [false, false, false, true, true, true, true, true, true]
     mid.t0.pc = .fastReturn ∧ mid.t0.result = none ∧
       mid.t1.pc = .clearCached ∧ mid.cached = some 0 ∧
       0 ∈ mid.closed) ∧
    (let fin := crun (fun tid _ => !tid) 0
        ⟨Thread.init, Thread.init, some 0, 0, [], none, 1⟩
        [false, false, false, true, true, true, true, true, true, false]
     fin.t0.result = some (some 0) ∧ fin.t1.pc = .clearCached ∧
       0 ∈ fin.closed) := by
  exact ⟨by decide, by decide⟩

/-- C9, amended.  In the two-thread interleaving model of `create_client`:
the lock-ownership and no-leaked-client invariants are preserved by every
schedule, so at most one thread at a time is inside the locked
close/clear/establish critical section (single-flight, with the
cached-client check repeated inside the lock), and no execution produces two
live cached clients — of any two distinct clients ever created, at least one
is closed, the only possibly-live one being the currently cached client; a
thread at the lock while another holds it is blocked (its step does not
change the configuration); and a thread whose in-lock recheck finds a fresh,
healthy cached client returns that client and releases the lock without any
establishment.  However the lock-free fast path may return a client that a
concurrent slow-path caller has already closed (see the counterexample), so
the claim's "never returns a concurrently closed client" conjunct does not
hold. -/
theorem c9_factory_concurrency (ping : Bool → Nat → Bool) (now : Int)
    (cfg : CConfig) (sched : List Bool) (tid : Bool) :
    (LockInv cfg → CacheInv cfg →
      LockInv (crun ping now cfg sched) ∧
        CacheInv (crun ping now cfg sched)) ∧
    (LockInv cfg → ¬ (inCrit cfg.t0.pc = true ∧ inCrit cfg.t1.pc = true)) ∧
    (CacheInv cfg → ∀ i j, i < cfg.nextId → j < cfg.nextId → i ≠ j →
      i ∈ cfg.closed ∨ j ∈ cfg.closed) ∧
    ((cfg.thr tid).pc = .lockWait → cfg.lock ≠ none →
      cstep ping now cfg tid = cfg) ∧
    (∀ c, (cfg.thr tid).pc = .recheck → cfg.cached = some c →
      now - cfg.creationTime < clientLifetime → ping tid c = true →
      cstep ping now cfg tid
        = { cfg.setThr tid
              { cfg.thr tid with result := some (some c), pc := .threadDone }
            with lock := none }) := by
  refine ⟨?_, ?_, ?_, ?_, ?_⟩
  · have main : ∀ (sc : List Bool) (c : CConfig), LockInv c → CacheInv c →
        LockInv (crun ping now c sc) ∧ CacheInv (crun ping now c sc) := by
      intro sc
      induction sc with
      | nil => intro c hLk hCa; exact ⟨hLk, hCa⟩
      | cons t ts ih =>
          intro c hLk hCa
          exact ih (cstep ping now c t) (cstep_lockInv ping now c t hLk)
            (cstep_cacheInv ping now c t hLk hCa)
    exact main sched cfg
  · rintro ⟨i0, i1⟩ ⟨h0, h1⟩
    have hcontra := (i0 h0).symm.trans (i1 h1)
    simp at hcontra
  · intro hC i j hi hj hne
    rcases hC.1 i hi with hci | hci
    · rcases hC.1 j hj with hcj | hcj
      · exfalso
        have hij := hci.symm.trans hcj
        injection hij with hij
        exact hne hij
      · exact Or.inr hcj
    · exact Or.inl hci
  · intro hpc hlock
    cases hl : cfg.lock with
    | none => exact absurd hl hlock
    | some w => simp only [cstep, hpc, hl]
  · intro c hpc hc hfresh hping
    simp only [cstep, hpc, hc]
    rw [if_pos ⟨hfresh, hping⟩]

/-- Witness for C9 (amended): preservation of both invariants along the full
racing schedule; mutual exclusion at a configuration with thread 1 in the
critical section; no-two-live-clients at the final configuration of the race
(of the two clients ever created there, one is closed); a blocked thread at
`lockWait`; and an in-lock recheck hit returning the cached client. -/
theorem c9_witness :
    (LockInv (crun (fun tid _ => !tid) 0
        ⟨Thread.init, Thread.init, some 0, 0, [], none, 1⟩
        [false, false, false, true, true, true, true, true, true, false,
         true, true, true]) ∧
      CacheInv (crun (fun tid _ => !tid) 0
        ⟨Thread.init, Thread.init, some 0, 0, [], none, 1⟩
        [false, false, false, true, true, true, true, true, true, false,
         true, true, true])) ∧
    ¬ (inCrit (⟨⟨.lockWait, some 0, none, none⟩,
        ⟨.establish, none, none, none⟩, none, 0, [0], some true,
        1⟩ : CConfig).t0.pc = true ∧
       inCrit (⟨⟨.lockWait, some 0, none, none⟩,
        ⟨.establish, none, none, none⟩, none, 0, [0], some true,
        1⟩ : CConfig).t1.pc = true) ∧
    (0 ∈ (crun (fun tid _ => !tid) 0
        ⟨Thread.init, Thread.init, some 0, 0, [], none, 1⟩
        [false, false, false, true, true, true, true, true, true, false,
         true, true, true]).closed ∨
     1 ∈ (crun (fun tid _ => !tid) 0
        ⟨Thread.init, Thread.init, some 0, 0, [], none, 1⟩
        [false, false, false, true, true, true, true, true, true, false,
         true, true, true]).closed) ∧
    cstep (fun _ _ => true) 0
        ⟨⟨.lockWait, some 0, none, none⟩, ⟨.establish, none, none, none⟩,
         none, 0, [0], some true, 1⟩ false
      = ⟨⟨.lockWait, some 0, none, none⟩, ⟨.establish, none, none, none⟩,
         none, 0, [0], some true, 1⟩ ∧
    cstep (fun _ _ => true) 0
        ⟨⟨.recheck, some 0, none, none⟩, Thread.init, some 0, 0, [],
         some false, 1⟩ false
      = { CConfig.setThr
            ⟨⟨.recheck, some 0, none, none⟩, Thread.init, some 0, 0, [],
             some false, 1⟩ false
            { (⟨⟨.recheck, some 0, none, none⟩, Thread.init, some 0, 0, [],
               some false, 1⟩ : CConfig).thr false with
              result := some (some 0), pc := .threadDone }
          with lock := none } := by
  refine ⟨?_, ?_, ?_, ?_, ?_⟩
  · exact (c9_factory_concurrency (fun tid _ => !tid) 0
      ⟨Thread.init, Thread.init, some 0, 0, [], none, 1⟩
      [false, false, false, true, true, true, true, true, true, false,
       true, true, true] false).1 (by decide) (by decide)
  · exact (c9_factory_concurrency (fun _ _ => true) 0
      ⟨⟨.lockWait, some 0, none, none⟩, ⟨.establish, none, none, none⟩,
       none, 0, [0], some true, 1⟩ [] false).2.1 (by decide)
  · exact (c9_factory_concurrency (fun tid _ => !tid) 0
      (crun (fun tid _ => !tid) 0
        ⟨Thread.init, Thread.init, some 0, 0, [], none, 1⟩
        [false, false, false, true, true, true, true, true, true, false,
         true, true, true]) [] false).2.2.1 (by decide) 0 1
      (by decide) (by decide) (by decide)
  · exact (c9_factory_concurrency (fun _ _ => true) 0
      ⟨⟨.lockWait, some 0, none, none⟩, ⟨.establish, none, none, none⟩,
       none, 0, [0], some true, 1⟩ [] false).2.2.2.1 (by decide) (by decide)
  · exact (c9_factory_concurrency (fun _ _ => true) 0
      ⟨⟨.recheck, some 0, none, none⟩, Thread.init, some 0, 0, [],
       some false, 1⟩ [] false).2.2.2.2 0 (by decide) (by decide)
      (by decide) (by decide)

end CapMkt
